import Mathlib

/-!
Shallow embedding of the inference-call orchestration layer of the
group61 MBTI chatbot (Netlify serverless functions).  The embedding
covers:

* the JavaScript value model needed by the handlers (`JsVal`), with JS
  truthiness, `typeof`-style tests, `String()` coercion and
  `JSON.stringify` / `JSON.parse`;
* the response-normalization steps of `netlify/functions/mbti-chat.js`
  and of the `process-chat.js` variant stored as `src/unnamed/part_012`;
* the provider fallback loop `tryModelsInOrder` (part_012);
* the conversation analysis of `src/unnamed/part_010`
  (`analyzeConversation`, `shouldProvideAnalysis`);
* `SecurityManager.checkRateLimit` / `sanitizeInput` (shared-utils.cjs,
  bundled inside `netlify/functions/mbti-chat.js`);
* `sanitizeMessages` of `netlify/functions/process-chat.cjs`.

Strings are modelled as Lean `String` (lists of unicode scalar values);
the sources only manipulate them by concatenation, slicing, trimming and
substring search, where this agrees with JavaScript UTF-16 semantics for
the ASCII data involved.  JavaScript numbers are modelled as exact
rationals; every numeric literal appearing in the relevant code paths is
small enough that double rounding cannot affect any comparison made by
the code.
-/

/-! ### Characters that the task requires us to build by code point -/

def quoteC : Char := Char.ofNat 34

def apoC : Char := Char.ofNat 39

def btC : Char := Char.ofNat 96

def lbC : Char := Char.ofNat 123

def rbC : Char := Char.ofNat 125

def bsC : Char := Char.ofNat 92

/-- A one-character string holding an apostrophe. -/
def apo : String := String.mk [apoC]

/-! ### Small string utilities mirroring the JS string operations used -/

/-- JSON whitespace (the four characters accepted by `JSON.parse`). -/
def isJsonWs (c : Char) : Bool :=
  c == ' ' || c == Char.ofNat 9 || c == Char.ofNat 10 || c == Char.ofNat 13

/-- The regex class `\s` and the set stripped by `String.prototype.trim`
(ASCII part; the unicode spaces never occur in the data considered). -/
def isRegexWs (c : Char) : Bool :=
  c == ' ' || c == Char.ofNat 9 || c == Char.ofNat 10 || c == Char.ofNat 13 ||
  c == Char.ofNat 11 || c == Char.ofNat 12

/-- The regex class `\w` = `[A-Za-z0-9_]`. -/
def isWordChar (c : Char) : Bool :=
  (c ≥ 'a' && c ≤ 'z') || (c ≥ 'A' && c ≤ 'Z') || (c ≥ '0' && c ≤ '9') || c == '_'

/-- The regex class `[A-Za-z]`. -/
def isAsciiLetter (c : Char) : Bool :=
  (c ≥ 'a' && c ≤ 'z') || (c ≥ 'A' && c ≤ 'Z')

def isDigitC (c : Char) : Bool := c ≥ '0' && c ≤ '9'

/-- `String.prototype.toLowerCase` (ASCII part). -/
def strLower (s : String) : String := String.mk (s.data.map Char.toLower)

/-- `haystack.includes(pattern)` on character lists. -/
def listContains : List Char → List Char → Bool
  | [], pat => pat.isEmpty
  | c :: t, pat => pat.isPrefixOf (c :: t) || listContains t pat

/-- `haystack.includes(pattern)` on strings. -/
def strContains (s sub : String) : Bool := listContains s.data sub.data

/-- Length of the leading run of characters satisfying `p`. -/
def leadCount (p : Char → Bool) : List Char → Nat
  | [] => 0
  | c :: t => if p c then leadCount p t + 1 else 0

/-- Is there a run of at least `n` equal consecutive characters?
Models the regex test `/(.)\1{m,}/` with `n = m + 1`. -/
def hasRunGe : List Char → Nat → Bool
  | [], _ => false
  | c :: t, n => decide (1 + leadCount (fun d => d == c) t ≥ n) || hasRunGe t n

/-- Is there a run of at least `n` consecutive ASCII letters?
Models the regex test `/[A-Za-z]{n,}/`. -/
def hasLetterRunGe : List Char → Nat → Bool
  | [], _ => false
  | c :: t, n =>
    (isAsciiLetter c && decide (1 + leadCount isAsciiLetter t ≥ n)) || hasLetterRunGe t n

/-- `Array.prototype.slice(-n)`: the last `n` elements. -/
def takeLast (n : Nat) (l : List α) : List α := l.drop (l.length - n)

/-- `String.prototype.trim` on character lists. -/
def jsTrimL (cs : List Char) : List Char :=
  ((cs.dropWhile isRegexWs).reverse.dropWhile isRegexWs).reverse

/-- `String.prototype.trim`. -/
def jsTrim (s : String) : String := String.mk (jsTrimL s.data)

/-- `String.prototype.slice(0, n)` for a non-negative `n`. -/
def strTake (s : String) (n : Nat) : String := String.mk (s.data.take n)

/-! ### Exact rational numbers for the JS number model -/

/-- JS numbers, modelled as exact rationals over `Int`/`Nat` (kept
normalized, positive denominator).  See the header note on fidelity. -/
structure JNum where
  num : Int
  den : Nat
deriving DecidableEq

/-- Normalize a fraction (the denominator is never `0` at call sites). -/
def JNum.normalize (n : Int) (d : Nat) : JNum :=
  let g := Nat.gcd n.natAbs d
  if g == 0 then ⟨0, 1⟩ else ⟨n / (g : Int), d / g⟩

def JNum.ofInt (n : Int) : JNum := ⟨n, 1⟩

def JNum.ofNat (n : Nat) : JNum := ⟨(n : Int), 1⟩

/-- `mant * 10^exp` as an exact rational. -/
def JNum.scaled (mant : Int) (exp : Int) : JNum :=
  if 0 ≤ exp then ⟨mant * ((10 : Int) ^ exp.toNat), 1⟩
  else JNum.normalize mant ((10 : Nat) ^ (-exp).toNat)

/-- `t / d` for naturals, as an exact rational (`d > 0` at call sites). -/
def JNum.divNat (t d : Nat) : JNum := JNum.normalize (t : Int) d

/-- Strict comparison `a < b`. -/
def JNum.ltB (a b : JNum) : Bool := a.num * (b.den : Int) < b.num * (a.den : Int)

/-- Comparison `a ≤ b`. -/
def JNum.leB (a b : JNum) : Bool := a.num * (b.den : Int) ≤ b.num * (a.den : Int)

/-- The value as a Mathlib rational, for specification-level statements. -/
def JNum.toRat (a : JNum) : ℚ := (a.num : ℚ) / (a.den : ℚ)

/-! ### The JavaScript value model -/

/-- JavaScript values as far as the handlers inspect them.  Numbers are
modelled as exact rationals (see the header note). -/
inductive JsVal where
  | vnull
  | vundef
  | vbool (b : Bool)
  | vnum (q : JNum)
  | vstr (s : String)
  | varr (elems : List JsVal)
  | vobj (fields : List (String × JsVal))

/-- First-match association lookup; parse-produced objects have unique
keys (duplicates are collapsed by `setField` below, as `JSON.parse`
keeps the last value at the first position). -/
def lookupField : List (String × JsVal) → String → Option JsVal
  | [], _ => none
  | (k, v) :: t, key => if k == key then some v else lookupField t key

/-- JS property assignment `o[k] = v`: overwrite in place if the key
exists (keeping its position), otherwise append. -/
def setField : List (String × JsVal) → String → JsVal → List (String × JsVal)
  | [], k, v => [(k, v)]
  | (k0, v0) :: t, k, v =>
    if k0 == k then (k0, v) :: t else (k0, v0) :: setField t k v

/-- JavaScript truthiness.  `NaN` does not arise in the model (all
numbers come from JSON literals or program constants). -/
def JsVal.truthy : JsVal → Bool
  | .vnull => false
  | .vundef => false
  | .vbool b => b
  | .vnum q => !(q == JNum.ofNat 0)
  | .vstr s => !s.isEmpty
  | .varr _ => true
  | .vobj _ => true

/-- Property access `v.k` (undefined outside plain objects; index
access on arrays is matched structurally where the code uses it). -/
def getJsField : JsVal → String → JsVal
  | .vobj f, k => (lookupField f k).getD .vundef
  | _, _ => .vundef

def isStrB : JsVal → Bool
  | .vstr _ => true
  | _ => false

def isBoolB : JsVal → Bool
  | .vbool _ => true
  | _ => false

def isNumB : JsVal → Bool
  | .vnum _ => true
  | _ => false

def isObjB : JsVal → Bool
  | .vobj _ => true
  | _ => false

def isArrB : JsVal → Bool
  | .varr _ => true
  | _ => false

/-! ### JSON.stringify -/

def hexDigit (n : Nat) : Char :=
  if n < 10 then Char.ofNat (48 + n) else Char.ofNat (87 + n)

/-- Escape one character as inside a `JSON.stringify` string literal. -/
def escapeJsonChar (c : Char) : String :=
  if c == quoteC then String.mk [bsC, quoteC]
  else if c == bsC then String.mk [bsC, bsC]
  else if c == Char.ofNat 10 then String.mk [bsC, 'n']
  else if c == Char.ofNat 13 then String.mk [bsC, 'r']
  else if c == Char.ofNat 9 then String.mk [bsC, 't']
  else if c == Char.ofNat 8 then String.mk [bsC, 'b']
  else if c == Char.ofNat 12 then String.mk [bsC, 'f']
  else if c.toNat < 32 then
    String.mk [bsC, 'u', '0', '0', hexDigit (c.toNat / 16), hexDigit (c.toNat % 16)]
  else String.mk [c]

def escapeJsonStr (s : String) : String :=
  String.mk [quoteC] ++ String.join (s.data.map escapeJsonChar) ++ String.mk [quoteC]

/-- Smallest `k ≤ 30` with `q * 10^k` integral, if any.  Exists for
every number produced by parsing a JSON literal. -/
def decExp (q : JNum) : Option Nat :=
  (List.range 31).find? (fun k => ((10 : Nat) ^ k) % q.den == 0)

/-- JS rendering of a number.  Integers print as integers, finite
decimals as their (shortest, exact) decimal expansion, matching the JS
output for every number value arising in the modelled code. -/
def qToJson (q : JNum) : String :=
  if q.den == 1 then toString q.num
  else
    match decExp q with
    | some k =>
      let scaled : Int := q.num * ((((10 : Nat) ^ k) / q.den : Nat) : Int)
      let sign : String := if scaled < 0 then "-" else ""
      let ds : List Char := (toString scaled.natAbs).data
      if ds.length ≤ k then
        sign ++ "0." ++ String.mk (List.replicate (k - ds.length) '0') ++ String.mk ds
      else
        sign ++ String.mk (ds.take (ds.length - k)) ++ "." ++ String.mk (ds.drop (ds.length - k))
    | none => toString q.num ++ "/" ++ toString q.den

mutual

/-- `JSON.stringify` (on values without `undefined` members; a
top-level `undefined` never reaches it in the modelled paths). -/
def jsonStringify : JsVal → String
  | .vnull => "null"
  | .vundef => "null"
  | .vbool b => cond b "true" "false"
  | .vnum q => qToJson q
  | .vstr s => escapeJsonStr s
  | .varr l => "[" ++ String.intercalate "," (stringifyItems l) ++ "]"
  | .vobj f => String.mk [lbC] ++ String.intercalate "," (stringifyPairs f) ++ String.mk [rbC]

def stringifyItems : List JsVal → List String
  | [] => []
  | v :: t => jsonStringify v :: stringifyItems t

def stringifyPairs : List (String × JsVal) → List String
  | [] => []
  | (k, v) :: t => (escapeJsonStr k ++ ":" ++ jsonStringify v) :: stringifyPairs t

end

mutual

/-- `String(v)`: the JS string coercion used by `sanitizeMessages`. -/
def jsToString : JsVal → String
  | .vnull => "null"
  | .vundef => "undefined"
  | .vbool b => cond b "true" "false"
  | .vnum q => qToJson q
  | .vstr s => s
  | .varr l => String.intercalate "," (arrToStrings l)
  | .vobj _ => "[object Object]"

def arrToStrings : List JsVal → List String
  | [] => []
  | v :: t =>
    (match v with
     | .vnull => ""
     | .vundef => ""
     | w => jsToString w) :: arrToStrings t

end

/-! ### JSON.parse -/

def hexVal (c : Char) : Option Nat :=
  if c ≥ '0' && c ≤ '9' then some (c.toNat - 48)
  else if c ≥ 'a' && c ≤ 'f' then some (c.toNat - 87)
  else if c ≥ 'A' && c ≤ 'F' then some (c.toNat - 55)
  else none

def escChar (e : Char) : Option Char :=
  if e == quoteC then some quoteC
  else if e == bsC then some bsC
  else if e == '/' then some '/'
  else if e == 'b' then some (Char.ofNat 8)
  else if e == 'f' then some (Char.ofNat 12)
  else if e == 'n' then some (Char.ofNat 10)
  else if e == 'r' then some (Char.ofNat 13)
  else if e == 't' then some (Char.ofNat 9)
  else none

/-- Parse the inside of a JSON string literal (after the opening
quote); returns the decoded characters and the rest of the input. -/
def parseStrChars : List Char → Option (List Char × List Char)
  | [] => none
  | c :: rest =>
    if c == quoteC then some ([], rest)
    else if c == bsC then
      match rest with
      | [] => none
      | e :: rest2 =>
        if e == 'u' then
          match rest2 with
          | a :: b :: c2 :: d :: rest3 =>
            match hexVal a, hexVal b, hexVal c2, hexVal d with
            | some ha, some hb, some hc, some hd =>
              (parseStrChars rest3).map
                (fun p => (Char.ofNat (((ha * 16 + hb) * 16 + hc) * 16 + hd) :: p.1, p.2))
            | _, _, _, _ => none
          | _ => none
        else
          match escChar e with
          | some ch => (parseStrChars rest2).map (fun p => (ch :: p.1, p.2))
          | none => none
    else if c.toNat < 32 then none
    else (parseStrChars rest).map (fun p => (c :: p.1, p.2))

def digitsToNat (ds : List Char) : Nat :=
  ds.foldl (fun a c => a * 10 + (c.toNat - 48)) 0

/-- Parse a JSON number (JSON grammar: no leading zeros, optional
fraction and exponent). -/
def parseNumber (cs : List Char) : Option (JsVal × List Char) :=
  let (neg, cs1) :=
    match cs with
    | c :: t => if c == '-' then (true, t) else (false, cs)
    | [] => (false, cs)
  let ip := cs1.takeWhile isDigitC
  if ip.isEmpty then none
  else if decide (ip.length > 1) && (ip.head? == some '0') then none
  else
    let cs2 := cs1.drop ip.length
    let (fp, cs3, okF) :=
      match cs2 with
      | c :: t =>
        if c == '.' then
          let f := t.takeWhile isDigitC
          (f, t.drop f.length, !f.isEmpty)
      else ([], cs2, true)
      | [] => ([], cs2, true)
    if !okF then none
    else
      let (eval, cs4, okE) :=
        match cs3 with
        | c :: t =>
          if c == 'e' || c == 'E' then
            let (esign, t2) :=
              match t with
              | d :: t2 =>
                if d == '-' then ((-1 : Int), t2)
                else if d == '+' then ((1 : Int), t2)
                else ((1 : Int), t)
              | [] => ((1 : Int), t)
            let ed := t2.takeWhile isDigitC
            (esign * (digitsToNat ed : Int), t2.drop ed.length, !ed.isEmpty)
          else ((0 : Int), cs3, true)
        | [] => ((0 : Int), cs3, true)
      if !okE then none
      else
        let mant : Int := (if neg then (-1 : Int) else 1) * (digitsToNat (ip ++ fp) : Int)
        some (.vnum (JNum.scaled mant (eval - (fp.length : Int))), cs4)

mutual

/-- Parse one JSON value (fuel-driven recursive descent). -/
def parseVal : Nat → List Char → Option (JsVal × List Char)
  | 0, _ => none
  | fuel + 1, cs =>
    match cs with
    | [] => none
    | c :: rest =>
      if c == quoteC then
        (parseStrChars rest).map (fun p => (.vstr (String.mk p.1), p.2))
      else if c == lbC then
        let r1 := rest.dropWhile isJsonWs
        match r1 with
        | d :: r2 =>
          if d == rbC then some (.vobj [], r2)
          else
            (parseMembers fuel r1).map
              (fun p => (.vobj (p.1.foldl (fun acc kv => setField acc kv.1 kv.2) []), p.2))
        | [] => none
      else if c == '[' then
        let r1 := rest.dropWhile isJsonWs
        match r1 with
        | d :: r2 =>
          if d == ']' then some (.varr [], r2)
          else (parseItems fuel r1).map (fun p => (.varr p.1, p.2))
        | [] => none
      else if c == 'n' then
        match cs with
        | 'n' :: 'u' :: 'l' :: 'l' :: r => some (.vnull, r)
        | _ => none
      else if c == 't' then
        match cs with
        | 't' :: 'r' :: 'u' :: 'e' :: r => some (.vbool true, r)
        | _ => none
      else if c == 'f' then
        match cs with
        | 'f' :: 'a' :: 'l' :: 's' :: 'e' :: r => some (.vbool false, r)
        | _ => none
      else parseNumber cs

/-- Parse the elements of a non-empty JSON array body. -/
def parseItems : Nat → List Char → Option (List JsVal × List Char)
  | 0, _ => none
  | fuel + 1, cs =>
    (parseVal fuel (cs.dropWhile isJsonWs)).bind (fun p =>
      match p.2.dropWhile isJsonWs with
      | d :: r2 =>
        if d == ',' then (parseItems fuel r2).map (fun q => (p.1 :: q.1, q.2))
        else if d == ']' then some ([p.1], r2)
        else none
      | [] => none)

/-- Parse the members of a non-empty JSON object body. -/
def parseMembers : Nat → List Char → Option (List (String × JsVal) × List Char)
  | 0, _ => none
  | fuel + 1, cs =>
    match cs.dropWhile isJsonWs with
    | c :: rest =>
      if c == quoteC then
        (parseStrChars rest).bind (fun ks =>
          match ks.2.dropWhile isJsonWs with
          | d :: r2 =>
            if d == ':' then
              (parseVal fuel (r2.dropWhile isJsonWs)).bind (fun p =>
                match p.2.dropWhile isJsonWs with
                | e :: r3 =>
                  if e == ',' then
                    (parseMembers fuel r3).map
                      (fun q => ((String.mk ks.1, p.1) :: q.1, q.2))
                  else if e == rbC then some ([(String.mk ks.1, p.1)], r3)
                  else none
                | [] => none)
            else none
          | [] => none)
      else none
    | [] => none

end

/-- `JSON.parse`: parse the whole string (allowing surrounding JSON
whitespace), failing on trailing garbage. -/
def jsonParse (s : String) : Option JsVal :=
  let cs := s.data.dropWhile isJsonWs
  match parseVal (2 * cs.length + 4) cs with
  | some (v, rest) => if (rest.dropWhile isJsonWs).isEmpty then some v else none
  | none => none

/-! ### Regex models used by the normalizers -/

/-- Try the first alternative of `/```json\s*|\s*```/g` at the current
position: the literal ` ```json ` followed by greedy `\s*`. -/
def matchFenceOpen (cs : List Char) : Option (List Char) :=
  if "```json".data.isPrefixOf cs then some ((cs.drop 7).dropWhile isRegexWs)
  else none

/-- Try the second alternative `\s*``` ` at the current position
(greedy whitespace run, then the three backticks; no backtracking is
possible because a backtick is not whitespace). -/
def matchFenceTicks (cs : List Char) : Option (List Char) :=
  if "```".data.isPrefixOf (cs.dropWhile isRegexWs) then
    some ((cs.dropWhile isRegexWs).drop 3)
  else none

theorem isPrefixOf_length_le {l p : List Char} (h : p.isPrefixOf l = true) :
    p.length ≤ l.length := by
  have hp : p <+: l := by
    rwa [List.isPrefixOf_iff_prefix] at h
  exact hp.length_le

theorem dropWhile_length_le (p : Char → Bool) (l : List Char) :
    (l.dropWhile p).length ≤ l.length := by
  induction l with
  | nil => simp [List.dropWhile]
  | cons c t ih =>
    by_cases h : p c
    · rw [List.dropWhile_cons_of_pos h]
      exact Nat.le_trans ih (Nat.le_succ _)
    · rw [List.dropWhile_cons_of_neg h]

/-- One fuelled pass of the global replacement
`content.replace(/```json\s*|\s*```/g, '')` of `mbti-chat.js` line 107:
scan left to right, removing each match (first alternative preferred,
as in the JS regex engine).  Every step consumes at least one input
character, so fuel equal to the input length is always sufficient; on
exhausted fuel the remaining input (necessarily `[]`) is returned. -/
def fenceScanF : Nat → List Char → List Char
  | 0, cs => cs
  | fuel + 1, cs =>
    match matchFenceOpen cs with
    | some rest => fenceScanF fuel rest
    | none =>
      match matchFenceTicks cs with
      | some rest => fenceScanF fuel rest
      | none =>
        match cs with
        | [] => []
        | c :: t => c :: fenceScanF fuel t

/-- The global replacement `content.replace(/```json\s*|\s*```/g, '')`. -/
def fenceScan (cs : List Char) : List Char := fenceScanF cs.length cs

/-- Split at the first occurrence of ` ``` `: returns the characters
before it and the characters after it. -/
def splitTicks : List Char → Option (List Char × List Char)
  | [] => none
  | c :: t =>
    if "```".data.isPrefixOf (c :: t) then some ([], (c :: t).drop 3)
    else (splitTicks t).map (fun p => (c :: p.1, p.2))

/-- Case-insensitive prefix test against an (already lower-case)
pattern. -/
def startsWithCI (pat cs : List Char) : Bool :=
  ((cs.take pat.length).map Char.toLower) == pat

/-- Strip the maximal trailing whitespace run. -/
def dropTrailingWs (cs : List Char) : List Char :=
  (cs.reverse.dropWhile isRegexWs).reverse

/-- The first match's group of `/```json\s*([\s\S]*?)\s*```/i`
(`getJsonResponse`, part_012 line 106): find the earliest
(case-insensitive) ` ```json `, skip the following whitespace, and take
the lazily-matched interior up to the whitespace run preceding the
first closing ` ``` `. -/
def findFence : List Char → Option (List Char)
  | [] => none
  | c :: t =>
    if startsWithCI "```json".data (c :: t) then
      let body := ((c :: t).drop 7).dropWhile isRegexWs
      match splitTicks body with
      | some p => some (dropTrailingWs p.1)
      | none => findFence t
    else findFence t

/-- The brace-delimited slice heuristic: index of the first `{` and of
the last `}`; if both exist in that order, the inclusive slice between
them.  Models both `responseText.slice(start, end + 1)` (part_012
lines 108-112) and the replacement
`content.replace(/^[^{]*({.*})[^}]*$/s, '$1')` (mbti-chat.js line 108),
which keep exactly this substring and otherwise leave the text
unchanged. -/
def bracesSlice (cs : List Char) : Option (List Char) :=
  let pre := cs.takeWhile (fun c => !(c == lbC))
  let post := cs.reverse.takeWhile (fun c => !(c == rbC))
  if decide (pre.length < cs.length) && decide (post.length < cs.length) &&
     decide (pre.length < cs.length - 1 - post.length) then
    some ((cs.drop pre.length).take (cs.length - post.length - pre.length))
  else none

def extractBraces (cs : List Char) : List Char :=
  (bracesSlice cs).getD cs

/-! ### netlify/functions/mbti-chat.js : messages and helpers -/

/-- A request message `{role, content}` as the handlers receive it
(role, content). -/
abbrev ChatMsg := String × String

/-- `messages.filter(m => m.role === 'user').length`. -/
def userCount (messages : List ChatMsg) : Nat :=
  (messages.filter (fun m => m.1 == "user")).length

/-- `messages.map(m => m.content.toLowerCase()).join(' ')`. -/
def joinLowerContents (messages : List ChatMsg) : String :=
  String.intercalate " " (messages.map (fun m => strLower m.2))

def lookupD (o : List (String × JsVal)) (k : String) : JsVal :=
  ((lookupField o k).getD .vundef)

/-! ### mbti-chat.js : smart fallback (lines 119-165) -/

/-- Fallback message for an empty conversation (line 124). -/
def mbtiFb0Msg : String :=
  "Hi! I" ++ apo ++ "ll help you discover your MBTI personality type through a friendly conversation. Let" ++ apo ++ "s start: After a busy day, what helps you recharge your energy - spending time with friends or having some quiet time alone?"

/-- Fallback message after one or two user messages (line 132). -/
def mbtiFb2Msg : String :=
  "That" ++ apo ++ "s interesting! Now I" ++ apo ++ "m curious about how you prefer to learn new things. Do you like detailed step-by-step instructions, or do you prefer to explore and figure things out yourself?"

/-- Fallback message after three or four user messages (line 140). -/
def mbtiFb4Msg : String :=
  "Great! One more area I" ++ apo ++ "d like to explore: When making important decisions, what do you rely on more - logical analysis of facts and outcomes, or considering how it will affect people and relationships?"

/-- The keyword inference of lines 148-156. -/
def mbtiInferredType (conversation : String) : String :=
  if strContains conversation "alone" || strContains conversation "quiet" then
    if strContains conversation "logical" then "INTP" else "INFP"
  else if strContains conversation "people" || strContains conversation "social" then
    if strContains conversation "logical" then "ENTJ" else "ENFP"
  else "ENFP"

/-- The template-literal analysis message of line 159. -/
def mbtiFinalMsg (t : String) : String :=
  "Based on our conversation, you appear to be an " ++ t ++
  " personality type! You show characteristics of being " ++
  (if strContains t "I" then "introverted" else "extraverted") ++ ", " ++
  (if strContains t "S" then "sensing" else "intuitive") ++ ", " ++
  (if strContains t "T" then "thinking" else "feeling") ++ ", and " ++
  (if strContains t "J" then "judging" else "perceiving") ++
  ". This means you likely recharge through " ++
  (if strContains t "I" then "solitude" else "social interaction") ++ ", prefer " ++
  (if strContains t "S" then "concrete details" else "big picture thinking") ++
  ", make decisions based on " ++
  (if strContains t "T" then "logic" else "values") ++ ", and like " ++
  (if strContains t "J" then "structure" else "flexibility") ++ "."

/-- The smart fallback built when `JSON.parse` of the cleaned model
text fails (mbti-chat.js lines 116-165), keyed on the number of user
messages. -/
def smartFallback (messages : List ChatMsg) : List (String × JsVal) :=
  let uc := userCount messages
  if uc == 0 then
    [("message", .vstr mbtiFb0Msg), ("type", .vnull), ("confidence", .vnum (JNum.ofNat 0)),
     ("ready", .vbool false), ("progress", .vnum (JNum.ofNat 1))]
  else if uc ≤ 2 then
    [("message", .vstr mbtiFb2Msg), ("type", .vnull), ("confidence", .vnum (JNum.ofNat 0)),
     ("ready", .vbool false), ("progress", .vnum (JNum.ofNat 2))]
  else if uc ≤ 4 then
    [("message", .vstr mbtiFb4Msg), ("type", .vnull), ("confidence", .vnum (JNum.ofNat 0)),
     ("ready", .vbool false), ("progress", .vnum (JNum.ofNat 4))]
  else
    let conversation := joinLowerContents messages
    let t := mbtiInferredType conversation
    [("message", .vstr (mbtiFinalMsg t)), ("type", .vstr t), ("confidence", .vnum ⟨7, 10⟩),
     ("ready", .vbool true), ("progress", .vnum (JNum.ofNat 5))]

/-! ### mbti-chat.js : catch-block fallback (lines 190-202) -/

/-- Message of the catch-block fallback for an empty conversation. -/
def mbtiCatch0Msg : String :=
  "Hi there! I" ++ apo ++ "m here to help you discover your MBTI personality type. Let" ++ apo ++ "s start with a simple question: After a busy day, what helps you recharge your energy - spending time with friends or having some quiet time alone?"

/-- Message of the catch-block fallback for an ongoing conversation. -/
def mbtiCatchMoreMsg : String :=
  "That" ++ apo ++ "s helpful to know! Can you tell me more about how you prefer to approach learning new things?"

/-- The `fallbackResponse` object built in the handler's catch block
(mbti-chat.js lines 194-202). -/
def fallbackResponse (messages : List ChatMsg) : List (String × JsVal) :=
  let uc := userCount messages
  [("message", .vstr (if uc == 0 then mbtiCatch0Msg else mbtiCatchMoreMsg)),
   ("type", .vnull), ("confidence", .vnum (JNum.ofNat 0)), ("ready", .vbool false),
   ("progress", .vnum (JNum.ofNat (min (uc + 1) 5)))]

/-! ### mbti-chat.js : validation and normalization (lines 104-172) -/

/-- One `if (<field check fails>) result.k = default` step of
mbti-chat.js lines 169-172: overwrite the key when the check on its
current value fails. -/
def fixField (o : List (String × JsVal)) (k : String) (ok : JsVal → Bool) (w : JsVal) :
    List (String × JsVal) :=
  if ok (lookupD o k) then o else setField o k w

/-- The field validation of lines 168-172, applied to a parsed object:
a falsy `message` is replaced, a non-boolean `ready`, non-number
`progress` and non-number `confidence` get their defaults. -/
def mbtiValidate (o : List (String × JsVal)) (messages : List ChatMsg) :
    List (String × JsVal) :=
  fixField (fixField (fixField (fixField o
    "message" JsVal.truthy (.vstr "Can you tell me more about that?"))
    "ready" isBoolB (.vbool false))
    "progress" isNumB (.vnum (JNum.ofNat (min (userCount messages + 1) 5))))
    "confidence" isNumB (.vnum (JNum.ofNat 0))

/-- The content clean-up of mbti-chat.js lines 104-108: trim, strip
code fences (global regex), trim, then keep the first-`{`-to-last-`}`
slice if the brace-extraction regex matches. -/
def mbtiClean (content : String) : String :=
  let c0 := jsTrimL content.data
  let c1 := jsTrimL (fenceScan c0)
  String.mk (extractBraces c1)

/-- The whole response-normalization step of mbti-chat.js
(lines 104-172 together with the catch block they sit in): clean the
raw text, parse it, fall back to `smartFallback` when parsing fails,
validate required fields on object results.  A parsed `null` makes the
validation block throw (`result.message` access), which the handler's
catch turns into `fallbackResponse`; parsed primitives and arrays pass
through unchanged (property writes on them are discarded in sloppy
mode / dropped by `JSON.stringify`). -/
def mbtiNormalize (content : String) (messages : List ChatMsg) : JsVal :=
  match jsonParse (mbtiClean content) with
  | some (.vobj o) => .vobj (mbtiValidate o messages)
  | some .vnull => .vobj (fallbackResponse messages)
  | some v => v
  | none => .vobj (mbtiValidate (smartFallback messages) messages)

/-! ### mbti-chat.js : the handler around one provider call -/

/-- Outcome of one provider HTTP call, as the handlers observe it:
either the fetch threw (network error / timeout), or a response with a
status, a content-type flag and a body. -/
inductive ProviderResponse where
  | timeout
  | reply (status : Nat) (ctJson : Bool) (body : String)

/-- `response.ok`. -/
def okStatus (st : Nat) : Bool := 200 ≤ st && st < 300

/-- `apiData.choices?.[0]?.message?.content` followed by the truthiness
check of line 100 and the `.trim()` call of line 104: only a non-empty
string content proceeds (anything else throws or fails the check, and
the catch block takes over). -/
def mbtiExtractContent (env : JsVal) : Option String :=
  match getJsField env "choices" with
  | .varr (c0 :: _) =>
    match getJsField (getJsField c0 "message") "content" with
    | .vstr s => if s.isEmpty then none else some s
    | _ => none
  | _ => none

/-- The mbti-chat.js handler on a POST with the given messages, with
the single ChatGLM provider call abstracted as `r`.  Every failure path
lands in the catch block, which answers 200 with `fallbackResponse`. -/
def mbtiHandler (r : ProviderResponse) (messages : List ChatMsg) : Nat × JsVal :=
  match r with
  | .timeout => (200, .vobj (fallbackResponse messages))
  | .reply st _ body =>
    if !(okStatus st) then (200, .vobj (fallbackResponse messages))
    else
      match jsonParse body with
      | none => (200, .vobj (fallbackResponse messages))
      | some env =>
        match mbtiExtractContent env with
        | none => (200, .vobj (fallbackResponse messages))
        | some s => (200, mbtiNormalize s messages)

/-- Does an object carry the four fields the mbti-chat validation
guarantees: a truthy `message`, boolean `ready`, numeric `progress`,
numeric `confidence`? -/
def mbtiFieldsB (o : List (String × JsVal)) : Bool :=
  (lookupD o "message").truthy && isBoolB (lookupD o "ready") &&
  isNumB (lookupD o "progress") && isNumB (lookupD o "confidence")

/-! ### src/unnamed/part_012 (process-chat.js variant) -/

/-- `isValidText` (part_012 lines 70-77), on a string argument (the
call sites turn non-strings into `none` before reaching it): at least 5
characters, no HTML markers, no run of 11+ equal characters, no run of
80+ letters. -/
def isValidText (s : String) : Bool :=
  if s.length < 5 then false
  else if strContains s "<!DOCTYPE" || strContains s "<html" then false
  else if hasRunGe s.data 11 then false
  else if hasLetterRunGe s.data 80 then false
  else true

/-- The five required keys of the part_012 schema, in the order the
coercion checks them. -/
def p12Keys : List String := ["type", "confidence", "strengths", "growth_tips", "one_liner"]

/-- The documented default for each required key (part_012
lines 189-193). -/
def p12Default (k : String) : Option JsVal :=
  if k == "type" then some (.vstr "Unknown")
  else if k == "confidence" then some (.vnum (JNum.ofNat 0))
  else if k == "strengths" then some (.varr [])
  else if k == "growth_tips" then some (.varr [])
  else if k == "one_liner" then some (.vstr "")
  else none

/-- `'k' in parsed`. -/
def hasKey (o : List (String × JsVal)) (k : String) : Bool := (lookupField o k).isSome

/-- One `if (!('k' in parsed)) parsed.k = default` step of part_012
lines 189-193: append the key with its default when absent. -/
def ensureKey (o : List (String × JsVal)) (k : String) (w : JsVal) :
    List (String × JsVal) :=
  if hasKey o k then o else o ++ [(k, w)]

/-- The minimal sanity coercion of part_012 lines 188-193: each
required key that is absent is appended with its default; present keys
are left untouched (only presence is tested, not the type). -/
def p12Coerce (o : List (String × JsVal)) : List (String × JsVal) :=
  ensureKey (ensureKey (ensureKey (ensureKey (ensureKey o
    "type" (.vstr "Unknown"))
    "confidence" (.vnum (JNum.ofNat 0)))
    "strengths" (.varr []))
    "growth_tips" (.varr []))
    "one_liner" (.vstr "")

/-- The per-model parse-and-coerce block of part_012 lines 179-199,
seen at the object level (before `JSON.stringify`): the content must
pass `isValidText`, parse as JSON, and be an object; otherwise the
block signals failure (`continue` to the next model). -/
def p12NormalizeStep (content : String) : Option (List (String × JsVal)) :=
  if isValidText content then
    match jsonParse content with
    | some (.vobj o) => some (p12Coerce o)
    | _ => none
  else none

/-- `getJsonResponse` (part_012 lines 80-119): non-ok statuses and
network errors throw; an ok JSON-typed body is parsed directly; failing
that, the fenced-JSON extraction runs, then the brace-slice heuristic,
and any remaining failure throws.  `none` models every thrown error. -/
def getJsonResponseM (r : ProviderResponse) : Option JsVal :=
  match r with
  | .timeout => none
  | .reply st ct body =>
    if !(okStatus st) then none
    else
      match (if ct then jsonParse body else none) with
      | some v => some v
      | none =>
        match findFence body.data with
        | some inner => jsonParse (String.mk inner)
        | none =>
          match bracesSlice body.data with
          | some sl => jsonParse (String.mk sl)
          | none => none

/-- `chatJson?.choices?.[0]` truthiness plus
`chatJson.choices[0].message?.content` and the object-to-string
conversion of line 178 (`typeof content === 'object'` also catches
`null`, which stringifies to the 4-character string `"null"` and then
fails `isValidText`). -/
def p12ExtractContent (env : JsVal) : Option String :=
  match getJsField env "choices" with
  | .varr (c0 :: _) =>
    if c0.truthy then
      match getJsField (getJsField c0 "message") "content" with
      | .vstr s => some s
      | .vobj f => some (jsonStringify (.vobj f))
      | .varr l => some (jsonStringify (.varr l))
      | .vnull => some "null"
      | _ => none
    else none
  | _ => none

/-- One full provider attempt of the part_012 loop body
(lines 156-203): envelope extraction, content extraction, the validity
filter, JSON validation and coercion, and the final
`JSON.stringify(parsed)`.  A parsed array also succeeds: the property
writes of the coercion land on the array object and are dropped again
by `JSON.stringify`. -/
def p12Attempt (r : ProviderResponse) : Option String :=
  (getJsonResponseM r).bind (fun env =>
    (p12ExtractContent env).bind (fun content =>
      if isValidText content then
        match jsonParse content with
        | some (.vobj o) => some (jsonStringify (.vobj (p12Coerce o)))
        | some (.varr l) => some (jsonStringify (.varr l))
        | _ => none
      else none))

/-- `PREFERRED_MODELS` (part_012 lines 23-28). -/
def p12Models : List String :=
  ["anthropic/claude-3-haiku", "google/gemini-flash-1.5",
   "meta-llama/llama-3.1-8b-instruct", "deepseek/deepseek-chat"]

/-- `tryModelsInOrder` (part_012 lines 148-207) with the provider
ecosystem abstracted as a map from model name to HTTP outcome: try each
model in order, return the first successful attempt immediately;
`none` models the final `throw` after the chain is exhausted. -/
def tryModelsInOrder (env : String → ProviderResponse) : List String → Option String
  | [] => none
  | m :: rest =>
    match p12Attempt (env m) with
    | some s => some s
    | none => tryModelsInOrder env rest

/-- The part_012 handler on a POST whose body carried `messages`
(lines 230-296): reject non-arrays/empty arrays with 400, otherwise run
the model chain; a success answers 200 with a `reply` payload and the
`throw` of the exhausted chain is caught and answered as a 500 error
payload. -/
def p12Handler (env : String → ProviderResponse) (messages : JsVal) : Nat × JsVal :=
  match messages with
  | .varr l =>
    if l.isEmpty then
      (400, .vobj [("error", .vstr "Invalid payload: messages[] required")])
    else
      match tryModelsInOrder env p12Models with
      | some s => (200, .vobj [("reply", .vstr s)])
      | none =>
        (500, .vobj [("error", .vstr "Service temporarily unavailable. Please try again.")])
  | _ => (400, .vobj [("error", .vstr "Invalid payload: messages[] required")])

/-! ### src/unnamed/part_010 : analyzeConversation (lines 1048-1173) -/

/-- Energy-source indicators (part_010 line 1061). -/
def energyKeywords : List String :=
  ["recharge", "energy", "alone", "people", "social", "quiet", "friends",
   "solitude", "group", "party", "tired", "drained", "energized"]

/-- Information-processing indicators (line 1067). -/
def infoKeywords : List String :=
  ["learn", "details", "big picture", "step-by-step", "instructions", "creative",
   "practical", "abstract", "concrete", "possibilities", "facts", "innovative"]

/-- Decision-making indicators (line 1073). -/
def decisionKeywords : List String :=
  ["decide", "choice", "logical", "feelings", "analysis", "emotions", "rational",
   "values", "pros and cons", "heart", "head", "impact"]

/-- Lifestyle indicators (line 1079). -/
def lifestyleKeywords : List String :=
  ["plan", "flexible", "schedule", "spontaneous", "organized", "adapt",
   "structure", "routine", "deadline", "last minute", "prepared"]

/-- The explicit result-request phrases (lines 1085-1091). -/
def resultRequests : List String :=
  ["what" ++ apo ++ "s my type", "give me my mbti", "what am i", "my personality",
   "what type am i", "give me results", "my result", "assessment result",
   "what" ++ apo ++ "s my personality", "tell me my type", "so what" ++ apo ++ "s my mbti",
   "what" ++ apo ++ "s my mbti", "my mbti", "give me analysis", "analyze me",
   "what do you think", "tell me", "result", "assessment", "type"]

/-- The concatenated lower-cased transcript (line 1050). -/
def p10Conversation (messages : List ChatMsg) : String := joinLowerContents messages

/-- One dimension's coverage test (lines 1062-1082): a single
`some`-keyword containment over one keyword list. -/
def dimCovered (messages : List ChatMsg) (kws : List String) : Bool :=
  kws.any (fun k => strContains (p10Conversation messages) k)

def energyCovered (messages : List ChatMsg) : Bool := dimCovered messages energyKeywords

def infoCovered (messages : List ChatMsg) : Bool := dimCovered messages infoKeywords

def decisionCovered (messages : List ChatMsg) : Bool := dimCovered messages decisionKeywords

def lifestyleCovered (messages : List ChatMsg) : Bool := dimCovered messages lifestyleKeywords

/-- `dimensionsExplored` (line 1102). -/
def dimensionsExplored (messages : List ChatMsg) : Nat :=
  (cond (energyCovered messages) 1 0) + (cond (infoCovered messages) 1 0) +
  (cond (decisionCovered messages) 1 0) + (cond (lifestyleCovered messages) 1 0)

/-- `hasResultRequest` (lines 1093-1095). -/
def hasResultRequest (messages : List ChatMsg) : Bool :=
  resultRequests.any (fun p => strContains (p10Conversation messages) (strLower p))

/-- `totalLength` (line 1098): total character count of the user
messages. -/
def totalLength (messages : List ChatMsg) : Nat :=
  ((messages.filter (fun m => m.1 == "user")).map (fun m => m.2.length)).sum

/-- `avgMessageLength` (line 1099), as an exact rational (the double
quotient is within `2^-40` of it, far closer than the `1/count`
distance to the integer thresholds it is compared against). -/
def avgMessageLength (messages : List ChatMsg) : JNum :=
  JNum.divNat (totalLength messages) (max (userCount messages) 1)

/-- `shouldProvideAnalysis` (lines 1150-1161). -/
def shouldProvideAnalysis (messages : List ChatMsg) : Bool :=
  let hasDepth := decide (userCount messages ≥ 6) &&
    JNum.ltB (JNum.ofNat 20) (avgMessageLength messages)
  let allDimensionsCovered := decide (dimensionsExplored messages ≥ 4)
  let substantialConversation := decide (userCount messages ≥ 4) &&
    JNum.ltB (JNum.ofNat 15) (avgMessageLength messages)
  let mostDimensionsCovered := decide (dimensionsExplored messages ≥ 3)
  (allDimensionsCovered && hasDepth) ||
    (hasResultRequest messages && substantialConversation && mostDimensionsCovered &&
     decide (userCount messages ≥ 5))

/-! ### SecurityManager (shared-utils.cjs, bundled in mbti-chat.js) -/

/-- `SecurityManager.checkRateLimit` (lines 334-362), single-key view:
the SHA-256 key hashing and the `Map` lookup only select which
timestamp list is used, so one call is a function of that list, the
current instant, the limit and the window.  Expired timestamps are
pruned; at or above the limit the call is rejected and the stored list
is left as it was (the pruned copy is discarded); otherwise the pruned
list plus the current instant is stored and the call is admitted. -/
def checkRateLimit (state : List Nat) (now limit w : Nat) : Bool × List Nat :=
  let validTimestamps := state.filter (fun t => decide (now - t < w))
  if validTimestamps.length ≥ limit then (false, state)
  else (true, validTimestamps ++ [now])

/-- Run a sequence of calls (their instants) through the rate limiter,
returning the admission flags and the final stored list. -/
def rateLimitRun (limit w : Nat) (state : List Nat) : List Nat → List Bool × List Nat
  | [] => ([], state)
  | c :: rest =>
    let r := checkRateLimit state c limit w
    let q := rateLimitRun limit w r.2 rest
    (r.1 :: q.1, q.2)

/-- The instants of the admitted calls of a call sequence. -/
def admittedTimes (limit w : Nat) (state : List Nat) : List Nat → List Nat
  | [] => []
  | c :: rest =>
    let r := checkRateLimit state c limit w
    (if r.1 then [c] else []) ++ admittedTimes limit w r.2 rest

/-- Fuelled scan for the global case-insensitive removal
`input.replace(/pat/gi, '')` of a literal pattern (the pattern is given
lower-case and non-empty at all call sites; fuel equal to the input
length always suffices). -/
def stripAllCIF : Nat → List Char → List Char → List Char
  | 0, cs, _ => cs
  | fuel + 1, cs, pat =>
    match cs with
    | [] => []
    | c :: t =>
      if !pat.isEmpty && startsWithCI pat (c :: t) then
        stripAllCIF fuel ((c :: t).drop pat.length) pat
      else c :: stripAllCIF fuel t pat

def stripAllCI (cs pat : List Char) : List Char := stripAllCIF cs.length cs pat

/-- Match of `/on\w+=/i` at the current position: `on`
(case-insensitive) followed by a maximal non-empty `\w` run followed
by `=` (no backtracking is possible since `=` is not a word
character); returns the input after the match. -/
def evSkip (cs : List Char) : Option (List Char) :=
  if startsWithCI "on".data cs then
    match cs.drop (2 + ((cs.drop 2).takeWhile isWordChar).length) with
    | e :: rest2 =>
      if !((cs.drop 2).takeWhile isWordChar).isEmpty && e == '=' then some rest2
      else none
    | [] => none
  else none

/-- Fuelled scan for the global replacement
`input.replace(/on\w+=/gi, '')`. -/
def stripEventsF : Nat → List Char → List Char
  | 0, cs => cs
  | fuel + 1, cs =>
    match cs with
    | [] => []
    | c :: t =>
      match evSkip (c :: t) with
      | some rest2 => stripEventsF fuel rest2
      | none => c :: stripEventsF fuel t

def stripEvents (cs : List Char) : List Char := stripEventsF cs.length cs

/-- `SecurityManager.sanitizeInput` (lines 365-376): non-strings become
the empty string; strings are trimmed, truncated to `maxLength`,
stripped of angle brackets, of the three dangerous protocols
(case-insensitive) and of inline event-handler patterns. -/
def sanitizeInput (input : JsVal) (maxLength : Nat) : String :=
  match input with
  | .vstr s =>
    let a := jsTrimL s.data
    let b := a.take maxLength
    let c := b.filter (fun ch => !(ch == '<' || ch == '>'))
    let d := stripAllCI c ("javascript:".data)
    let e := stripAllCI d ("data:".data)
    let f := stripAllCI e ("vbscript:".data)
    String.mk (stripEvents f)
  | _ => ""

/-! ### netlify/functions/process-chat.cjs : sanitizeMessages -/

/-- `typeof m === 'object'` (true for plain objects, arrays and
`null`). -/
def typeofObjectB : JsVal → Bool
  | .vobj _ => true
  | .varr _ => true
  | .vnull => true
  | _ => false

/-- The filter of process-chat.cjs line 45:
`m && typeof m === 'object' && m.content`. -/
def keepMsgB (m : JsVal) : Bool :=
  m.truthy && typeofObjectB m && (getJsField m "content").truthy

/-- The map of lines 46-49: coerce the role (anything other than the
exact string `assistant` becomes `user`) and stringify, truncate and
trim the content. -/
def coerceMsg (m : JsVal) : ChatMsg :=
  ((match getJsField m "role" with
    | .vstr s => if s == "assistant" then "assistant" else "user"
    | _ => "user"),
   jsTrim (strTake (jsToString (getJsField m "content")) 6000))

/-- `sanitizeMessages` (process-chat.cjs lines 42-51). -/
def sanitizeMessages (input : JsVal) : List ChatMsg :=
  match input with
  | .varr xs => takeLast 20 ((xs.filter keepMsgB).map coerceMsg)
  | _ => []

/-! ### Helper lemmas about the association-list operations -/

theorem lookupField_setField_self (o : List (String × JsVal)) (k : String) (v : JsVal) :
    lookupField (setField o k v) k = some v := by
  induction o with
  | nil => simp [setField, lookupField]
  | cons hd t ih =>
    obtain ⟨k0, v0⟩ := hd
    by_cases hk : (k0 == k) = true
    · simp [setField, hk, lookupField]
    · simp only [Bool.not_eq_true] at hk
      simp [setField, hk, lookupField, ih]

theorem lookupField_setField_ne (o : List (String × JsVal)) (k k' : String) (v : JsVal)
    (h : (k == k') = false) :
    lookupField (setField o k v) k' = lookupField o k' := by
  induction o with
  | nil => simp [setField, lookupField, h]
  | cons hd t ih =>
    obtain ⟨k0, v0⟩ := hd
    by_cases hk : (k0 == k) = true
    · have hkk : k0 = k := by simpa using hk
      subst hkk
      simp [setField, lookupField, h]
    · simp only [Bool.not_eq_true] at hk
      simp [setField, hk, lookupField, ih]

theorem lookupField_append_some {o₁ : List (String × JsVal)} {k : String} {v : JsVal}
    (o₂ : List (String × JsVal)) (h : lookupField o₁ k = some v) :
    lookupField (o₁ ++ o₂) k = some v := by
  induction o₁ with
  | nil => simp [lookupField] at h
  | cons hd t ih =>
    obtain ⟨k0, v0⟩ := hd
    by_cases hk : (k0 == k) = true
    · simp_all [lookupField]
    · simp only [Bool.not_eq_true] at hk
      simp_all [lookupField]

theorem lookupField_append_none {o₁ : List (String × JsVal)} {k : String}
    (o₂ : List (String × JsVal)) (h : lookupField o₁ k = none) :
    lookupField (o₁ ++ o₂) k = lookupField o₂ k := by
  induction o₁ with
  | nil => simp [lookupField]
  | cons hd t ih =>
    obtain ⟨k0, v0⟩ := hd
    by_cases hk : (k0 == k) = true
    · simp_all [lookupField]
    · simp only [Bool.not_eq_true] at hk
      simp_all [lookupField]

/-! ### Length lemmas for the sanitizers -/

theorem jsTrimL_length_le (cs : List Char) : (jsTrimL cs).length ≤ cs.length := by
  unfold jsTrimL
  calc ((cs.dropWhile isRegexWs).reverse.dropWhile isRegexWs).reverse.length
      = ((cs.dropWhile isRegexWs).reverse.dropWhile isRegexWs).length := by
        rw [List.length_reverse]
    _ ≤ (cs.dropWhile isRegexWs).reverse.length := dropWhile_length_le _ _
    _ = (cs.dropWhile isRegexWs).length := by rw [List.length_reverse]
    _ ≤ cs.length := dropWhile_length_le _ _

theorem takeLast_length_le (n : Nat) (l : List α) : (takeLast n l).length ≤ n := by
  simp only [takeLast, List.length_drop]
  omega

theorem stripAllCIF_length_le (fuel : Nat) :
    ∀ (cs pat : List Char), (stripAllCIF fuel cs pat).length ≤ cs.length := by
  induction fuel with
  | zero => intro cs pat; simp [stripAllCIF]
  | succ fuel ih =>
    intro cs pat
    match cs with
    | [] => simp [stripAllCIF]
    | c :: t =>
      by_cases h : (!pat.isEmpty && startsWithCI pat (c :: t)) = true
      · calc (stripAllCIF (fuel + 1) (c :: t) pat).length
            = (stripAllCIF fuel ((c :: t).drop pat.length) pat).length := by
              simp [stripAllCIF, h]
          _ ≤ ((c :: t).drop pat.length).length := ih _ _
          _ ≤ (c :: t).length := by simp [List.length_drop]
      · calc (stripAllCIF (fuel + 1) (c :: t) pat).length
            = (c :: stripAllCIF fuel t pat).length := by simp [stripAllCIF, h]
          _ = (stripAllCIF fuel t pat).length + 1 := by simp
          _ ≤ t.length + 1 := by have := ih t pat; omega
          _ = (c :: t).length := by simp

theorem evSkip_length_lt {cs rest2 : List Char} (h : evSkip cs = some rest2) :
    rest2.length < cs.length := by
  unfold evSkip at h
  split at h
  · split at h
    · rename_i e r2 hdrop
      split at h
      · cases h
        have := congrArg List.length hdrop
        simp only [List.length_drop, List.length_cons] at this
        omega
      · cases h
    · cases h
  · cases h

theorem stripEventsF_length_le (fuel : Nat) :
    ∀ (cs : List Char), (stripEventsF fuel cs).length ≤ cs.length := by
  induction fuel with
  | zero => intro cs; simp [stripEventsF]
  | succ fuel ih =>
    intro cs
    match cs with
    | [] => simp [stripEventsF]
    | c :: t =>
      rcases hskip : evSkip (c :: t) with _ | ⟨rest2⟩
      · calc (stripEventsF (fuel + 1) (c :: t)).length
            = (c :: stripEventsF fuel t).length := by
              simp only [stripEventsF, hskip]
          _ = (stripEventsF fuel t).length + 1 := by simp
          _ ≤ t.length + 1 := by have := ih t; omega
          _ = (c :: t).length := by simp
      · have hlt := evSkip_length_lt hskip
        calc (stripEventsF (fuel + 1) (c :: t)).length
            = (stripEventsF fuel rest2).length := by
              simp only [stripEventsF, hskip]
          _ ≤ rest2.length := ih _
          _ ≤ (c :: t).length := Nat.le_of_lt hlt

/-- Claim C9: `sanitizeInput` is total — for every input value and
every (non-negative) length bound it returns a string; a non-string
input yields the empty string, and the result never exceeds
`maxLength` characters (trimming, truncation and substring stripping
only ever shorten the text). -/
theorem sanitizeInput_spec (v : JsVal) (maxLength : Nat) :
    (sanitizeInput v maxLength).length ≤ maxLength ∧
    (isStrB v = false → sanitizeInput v maxLength = "") := by
  constructor
  · match v with
    | .vstr s =>
      show (String.mk (stripEvents _)).length ≤ maxLength
      have h1 : ∀ l : List Char, (String.mk l).length = l.length := fun l => rfl
      rw [h1]
      calc (stripEvents (stripAllCI (stripAllCI (stripAllCI
              (((jsTrimL s.data).take maxLength).filter
                (fun ch => !(ch == '<' || ch == '>')))
              ("javascript:".data)) ("data:".data)) ("vbscript:".data))).length
          ≤ (stripAllCI (stripAllCI (stripAllCI
              (((jsTrimL s.data).take maxLength).filter
                (fun ch => !(ch == '<' || ch == '>')))
              ("javascript:".data)) ("data:".data)) ("vbscript:".data)).length :=
            stripEventsF_length_le _ _
        _ ≤ (stripAllCI (stripAllCI
              (((jsTrimL s.data).take maxLength).filter
                (fun ch => !(ch == '<' || ch == '>')))
              ("javascript:".data)) ("data:".data)).length := stripAllCIF_length_le _ _ _
        _ ≤ (stripAllCI
              (((jsTrimL s.data).take maxLength).filter
                (fun ch => !(ch == '<' || ch == '>')))
              ("javascript:".data)).length := stripAllCIF_length_le _ _ _
        _ ≤ (((jsTrimL s.data).take maxLength).filter
              (fun ch => !(ch == '<' || ch == '>'))).length := stripAllCIF_length_le _ _ _
        _ ≤ ((jsTrimL s.data).take maxLength).length := List.length_filter_le _ _
        _ ≤ maxLength := by simp [List.length_take]
    | .vnull => simp [sanitizeInput]
    | .vundef => simp [sanitizeInput]
    | .vbool b => simp [sanitizeInput]
    | .vnum q => simp [sanitizeInput]
    | .varr l => simp [sanitizeInput]
    | .vobj f => simp [sanitizeInput]
  · intro h
    match v with
    | .vstr s => simp [isStrB] at h
    | .vnull => rfl
    | .vundef => rfl
    | .vbool b => rfl
    | .vnum q => rfl
    | .varr l => rfl
    | .vobj f => rfl

/-- Witness for C9 at a concrete non-string input. -/
theorem sanitizeInput_spec_witness :
    (sanitizeInput (.vnum ⟨3, 1⟩) 7).length ≤ 7 ∧ sanitizeInput (.vnum ⟨3, 1⟩) 7 = "" :=
  ⟨(sanitizeInput_spec (.vnum ⟨3, 1⟩) 7).1,
   (sanitizeInput_spec (.vnum ⟨3, 1⟩) 7).2 (by rfl)⟩

/-- Claim C10: `sanitizeMessages` is total and silently truncating:
every input yields a list of at most 20 messages; non-arrays yield
`[]`; an array yields exactly the last 20 of its entries that are
objects with a (truthy) content field, coerced; every returned message
has role `user` or `assistant` (roles other than the exact string
`assistant` are coerced to `user`) and content of at most 6000
characters. -/
theorem sanitizeMessages_spec (v : JsVal) :
    (sanitizeMessages v).length ≤ 20 ∧
    (∀ m ∈ sanitizeMessages v, (m.1 = "user" ∨ m.1 = "assistant") ∧ m.2.length ≤ 6000) ∧
    (∀ xs, v = .varr xs →
      sanitizeMessages v = takeLast 20 ((xs.filter keepMsgB).map coerceMsg)) ∧
    ((∀ xs, v ≠ .varr xs) → sanitizeMessages v = []) ∧
    (∀ x : JsVal,
      (match getJsField x "role" with
       | .vstr s => s == "assistant"
       | _ => false) = false → (coerceMsg x).1 = "user") := by
  refine ⟨?_, ?_, ?_, ?_, ?_⟩
  · match v with
    | .varr xs => exact takeLast_length_le _ _
    | .vnull => simp [sanitizeMessages]
    | .vundef => simp [sanitizeMessages]
    | .vbool b => simp [sanitizeMessages]
    | .vnum q => simp [sanitizeMessages]
    | .vstr s => simp [sanitizeMessages]
    | .vobj f => simp [sanitizeMessages]
  · intro m hm
    have hm2 : m ∈ (match v with
        | .varr xs => takeLast 20 ((xs.filter keepMsgB).map coerceMsg)
        | _ => ([] : List ChatMsg)) := hm
    match v with
    | .varr xs =>
      simp only [takeLast] at hm2
      have hm3 : m ∈ (xs.filter keepMsgB).map coerceMsg := List.mem_of_mem_drop hm2
      obtain ⟨x, _, hx⟩ := List.mem_map.mp hm3
      subst hx
      constructor
      · unfold coerceMsg
        rcases getJsField x "role" with _ | _ | b | q | s | l | f <;> simp
        exact (em (s = "assistant")).symm
      · show (jsTrim (strTake (jsToString (getJsField x "content")) 6000)).length ≤ 6000
        unfold jsTrim strTake
        have h1 : ∀ l : List Char, (String.mk l).length = l.length := fun l => rfl
        rw [h1]
        calc (jsTrimL (String.mk ((jsToString (getJsField x "content")).data.take 6000)).data).length
            ≤ (String.mk ((jsToString (getJsField x "content")).data.take 6000)).data.length :=
              jsTrimL_length_le _
          _ ≤ 6000 := by simp [List.length_take]
    | .vnull => simp at hm2
    | .vundef => simp at hm2
    | .vbool b => simp at hm2
    | .vnum q => simp at hm2
    | .vstr s => simp at hm2
    | .vobj f => simp at hm2
  · intro xs h
    subst h
    rfl
  · intro h
    match v with
    | .varr xs => exact absurd rfl (h xs)
    | .vnull => rfl
    | .vundef => rfl
    | .vbool b => rfl
    | .vnum q => rfl
    | .vstr s => rfl
    | .vobj f => rfl
  · intro x hx
    unfold coerceMsg
    rcases hrole : getJsField x "role" with _ | _ | b | q | s | l | f <;> try rfl
    rw [hrole] at hx
    have hx2 : (s == "assistant") = false := hx
    simp [hx2]

/-- Witness for C10 at a concrete array input. -/
theorem sanitizeMessages_spec_witness :
    sanitizeMessages (.varr [.vobj [("role", .vstr "bot"), ("content", .vstr "x")]]) =
      takeLast 20 (([(JsVal.vobj [("role", .vstr "bot"), ("content", .vstr "x")])].filter
        keepMsgB).map coerceMsg) ∧
    (coerceMsg (.vobj [("role", .vstr "bot"), ("content", .vstr "x")])).1 = "user" :=
  ⟨(sanitizeMessages_spec _).2.2.1 _ rfl,
   (sanitizeMessages_spec (.varr [.vobj [("role", .vstr "bot"), ("content", .vstr "x")]])).2.2.2.2
     _ (by rfl)⟩

/-! ### Lemmas about `ensureKey` and the part_012 coercion (claim C2) -/

theorem ensureKey_lookup_some {o : List (String × JsVal)} {k : String} {v : JsVal}
    (k' : String) (w : JsVal) (h : lookupField o k = some v) :
    lookupField (ensureKey o k' w) k = some v := by
  unfold ensureKey
  split
  · exact h
  · exact lookupField_append_some _ h

theorem ensureKey_lookup_none {o : List (String × JsVal)} {k : String}
    (k' : String) (w : JsVal) (hne : (k' == k) = false) (h : lookupField o k = none) :
    lookupField (ensureKey o k' w) k = none := by
  unfold ensureKey
  split
  · exact h
  · rw [lookupField_append_none _ h]
    simp [lookupField, hne]

theorem ensureKey_lookup_self {o : List (String × JsVal)} {k : String} {w : JsVal}
    (h : lookupField o k = none) :
    lookupField (ensureKey o k w) k = some w := by
  unfold ensureKey
  have hk : hasKey o k = false := by simp [hasKey, h]
  rw [hk]
  simp only [Bool.false_eq_true, if_false]
  rw [lookupField_append_none _ h]
  simp [lookupField]

theorem ensureKey_hasKey_mono {o : List (String × JsVal)} {k : String}
    (k' : String) (w : JsVal) (h : hasKey o k = true) :
    hasKey (ensureKey o k' w) k = true := by
  unfold hasKey at h ⊢
  obtain ⟨v, hv⟩ := Option.isSome_iff_exists.mp h
  rw [ensureKey_lookup_some k' w hv]
  rfl

theorem ensureKey_hasKey_self (o : List (String × JsVal)) (k : String) (w : JsVal) :
    hasKey (ensureKey o k w) k = true := by
  rcases hl : lookupField o k with _ | v
  · unfold hasKey
    rw [ensureKey_lookup_self hl]
    rfl
  · exact ensureKey_hasKey_mono k w (by simp [hasKey, hl])

/-- Claim C2 (amended): after a successful parse, the part_012 coercion
guarantees presence of the five schema keys; a key that is absent is
appended with its documented default, while a key that is present keeps
its parsed value unchanged — even when that value has the wrong type —
and the confidence value is not clamped. -/
theorem p12Coerce_spec (o : List (String × JsVal)) :
    (∀ k ∈ p12Keys, hasKey (p12Coerce o) k = true) ∧
    (∀ k d, p12Default k = some d → lookupField o k = none →
      lookupField (p12Coerce o) k = some d) ∧
    (∀ k v, lookupField o k = some v → lookupField (p12Coerce o) k = some v) := by
  refine ⟨?_, ?_, ?_⟩
  · intro k hk
    simp only [p12Keys, List.mem_cons, List.not_mem_nil, or_false] at hk
    unfold p12Coerce
    rcases hk with rfl | rfl | rfl | rfl | rfl
    · exact ensureKey_hasKey_mono _ _ (ensureKey_hasKey_mono _ _ (ensureKey_hasKey_mono _ _
        (ensureKey_hasKey_mono _ _ (ensureKey_hasKey_self _ _ _))))
    · exact ensureKey_hasKey_mono _ _ (ensureKey_hasKey_mono _ _ (ensureKey_hasKey_mono _ _
        (ensureKey_hasKey_self _ _ _)))
    · exact ensureKey_hasKey_mono _ _ (ensureKey_hasKey_mono _ _ (ensureKey_hasKey_self _ _ _))
    · exact ensureKey_hasKey_mono _ _ (ensureKey_hasKey_self _ _ _)
    · exact ensureKey_hasKey_self _ _ _
  · intro k d hd hnone
    unfold p12Default at hd
    unfold p12Coerce
    split_ifs at hd with h1 h2 h3 h4 h5
    · have hk : k = "type" := beq_iff_eq.mp h1
      subst hk
      cases hd
      exact ensureKey_lookup_some _ _ (ensureKey_lookup_some _ _ (ensureKey_lookup_some _ _
        (ensureKey_lookup_some _ _ (ensureKey_lookup_self hnone))))
    · have hk : k = "confidence" := beq_iff_eq.mp h2
      subst hk
      cases hd
      exact ensureKey_lookup_some _ _ (ensureKey_lookup_some _ _ (ensureKey_lookup_some _ _
        (ensureKey_lookup_self (ensureKey_lookup_none _ _ (by rfl) hnone))))
    · have hk : k = "strengths" := beq_iff_eq.mp h3
      subst hk
      cases hd
      exact ensureKey_lookup_some _ _ (ensureKey_lookup_some _ _
        (ensureKey_lookup_self (ensureKey_lookup_none _ _ (by rfl)
          (ensureKey_lookup_none _ _ (by rfl) hnone))))
    · have hk : k = "growth_tips" := beq_iff_eq.mp h4
      subst hk
      cases hd
      exact ensureKey_lookup_some _ _
        (ensureKey_lookup_self (ensureKey_lookup_none _ _ (by rfl)
          (ensureKey_lookup_none _ _ (by rfl) (ensureKey_lookup_none _ _ (by rfl) hnone))))
    · have hk : k = "one_liner" := beq_iff_eq.mp h5
      subst hk
      cases hd
      exact ensureKey_lookup_self (ensureKey_lookup_none _ _ (by rfl)
        (ensureKey_lookup_none _ _ (by rfl) (ensureKey_lookup_none _ _ (by rfl)
          (ensureKey_lookup_none _ _ (by rfl) hnone))))
  · intro k v hv
    unfold p12Coerce
    exact ensureKey_lookup_some _ _ (ensureKey_lookup_some _ _ (ensureKey_lookup_some _ _
      (ensureKey_lookup_some _ _ (ensureKey_lookup_some _ _ hv))))

/-- Witness for C2 at a concrete parsed object with a missing `type`
and a present (unclamped) numeric `confidence`. -/
theorem p12Coerce_spec_witness :
    lookupField (p12Coerce [("confidence", .vnum ⟨5, 1⟩)]) "type" = some (.vstr "Unknown") ∧
    lookupField (p12Coerce [("confidence", .vnum ⟨5, 1⟩)]) "confidence" = some (.vnum ⟨5, 1⟩) :=
  ⟨(p12Coerce_spec [("confidence", .vnum ⟨5, 1⟩)]).2.1 "type" (.vstr "Unknown")
      (by rfl) (by rfl),
   (p12Coerce_spec [("confidence", .vnum ⟨5, 1⟩)]).2.2 "confidence" (.vnum ⟨5, 1⟩) (by rfl)⟩

/-- The input of the C2 counterexample: a syntactically valid model
reply whose `type` is a number and whose `confidence` is `5`. -/
def c2input : String := "\x7b\"type\":7,\"confidence\":5\x7d"

/-- The object the part_012 normalization step returns for it. -/
def c2out : List (String × JsVal) :=
  [("type", .vnum ⟨7, 1⟩), ("confidence", .vnum ⟨5, 1⟩), ("strengths", .varr []),
   ("growth_tips", .varr []), ("one_liner", .vstr "")]

/-- Counterexample to C2 as stated: after a successful parse, a
wrongly-typed `type` (a number) is NOT replaced by the "Unknown"
default, and the returned confidence `5` does NOT lie in `[0, 1]` (no
clamping happens). -/
theorem c2_counterexample :
    p12NormalizeStep c2input = some c2out ∧
    lookupField c2out "type" = some (.vnum ⟨7, 1⟩) ∧
    JsVal.vnum ⟨7, 1⟩ ≠ JsVal.vstr "Unknown" ∧
    lookupField c2out "confidence" = some (.vnum ⟨5, 1⟩) ∧
    ¬((0 : ℚ) ≤ JNum.toRat ⟨5, 1⟩ ∧ JNum.toRat ⟨5, 1⟩ ≤ 1) := by
  refine ⟨by rfl, by rfl, by simp, by rfl, ?_⟩
  rintro ⟨_, h⟩
  norm_num [JNum.toRat] at h

/-! ### Claims C6/C7: the part_010 dimension coverage and readiness -/

/-- Claim C6 (amended): in part_010's `analyzeConversation`, each
dimension is marked covered exactly when the concatenated lower-cased
transcript contains at least one keyword from that dimension's single
keyword list (there is no separate context-keyword set in this
variant). -/
theorem dimCovered_iff (messages : List ChatMsg) :
    (energyCovered messages = true ↔
      ∃ k ∈ energyKeywords, strContains (p10Conversation messages) k = true) ∧
    (infoCovered messages = true ↔
      ∃ k ∈ infoKeywords, strContains (p10Conversation messages) k = true) ∧
    (decisionCovered messages = true ↔
      ∃ k ∈ decisionKeywords, strContains (p10Conversation messages) k = true) ∧
    (lifestyleCovered messages = true ↔
      ∃ k ∈ lifestyleKeywords, strContains (p10Conversation messages) k = true) := by
  refine ⟨?_, ?_, ?_, ?_⟩ <;>
    simp [energyCovered, infoCovered, decisionCovered, lifestyleCovered, dimCovered,
      List.any_eq_true]

/-- Witness for C6: the transcript "recharge" covers the energy
dimension, via the keyword "recharge". -/
theorem dimCovered_iff_witness :
    ∃ k ∈ energyKeywords, strContains (p10Conversation [("user", "recharge")]) k = true :=
  (dimCovered_iff [("user", "recharge")]).1.mp (by rfl)

/-- Counterexample to C6 as stated: the single-keyword transcript
"recharge" hits exactly one keyword of the energy dimension's (only)
keyword list and is nevertheless marked covered — no second
context-keyword set is consulted. -/
theorem c6_counterexample :
    energyCovered [("user", "recharge")] = true ∧
    (energyKeywords.filter
      (fun k => strContains (p10Conversation [("user", "recharge")]) k)).length = 1 :=
  ⟨by rfl, by rfl⟩

/-- Claim C7 (amended): `shouldProvideAnalysis` is false whenever fewer
than all four dimensions are covered AND the transcript contains no
explicit result request; it is false whenever fewer than three
dimensions are covered, regardless of requests.  (With an explicit
request, ≥ 5 sufficiently long user messages and 3 covered dimensions
it can be true — see the counterexample.) -/
theorem shouldProvideAnalysis_spec (messages : List ChatMsg) :
    (dimensionsExplored messages < 4 → hasResultRequest messages = false →
      shouldProvideAnalysis messages = false) ∧
    (dimensionsExplored messages < 3 → shouldProvideAnalysis messages = false) := by
  constructor
  · intro h4 hreq
    have hd4 : decide (dimensionsExplored messages ≥ 4) = false := by
      simp
      omega
    unfold shouldProvideAnalysis
    rw [hd4, hreq]
    simp
  · intro h3
    have hd4 : decide (dimensionsExplored messages ≥ 4) = false := by
      simp
      omega
    have hd3 : decide (dimensionsExplored messages ≥ 3) = false := by
      simp
      omega
    unfold shouldProvideAnalysis
    rw [hd4, hd3]
    simp

/-- Witness for C7 on a one-message transcript with no coverage and no
result request. -/
theorem shouldProvideAnalysis_spec_witness :
    shouldProvideAnalysis [("user", "hello")] = false :=
  (shouldProvideAnalysis_spec [("user", "hello")]).1 (by decide) (by rfl)

/-- The C7 counterexample transcript: five substantial user messages
covering energy, information and decision-making (but not lifestyle),
ending in an explicit result request. -/
def c7msgs : List ChatMsg :=
  [("user", "i recharge alone with quiet time always"),
   ("user", "i learn with details and step-by-step instructions"),
   ("user", "i decide with logical analysis of facts"),
   ("user", "i enjoy reading books every single evening"),
   ("user", "so tell me my type now please")]

/-- Counterexample to C7 as stated: only three of the four dimensions
are covered, yet the readiness flag is true (the explicit-result-
request disjunct fires with 3 covered dimensions). -/
theorem c7_counterexample :
    dimensionsExplored c7msgs = 3 ∧ lifestyleCovered c7msgs = false ∧
    shouldProvideAnalysis c7msgs = true :=
  ⟨by rfl, by rfl, by rfl⟩

/-! ### Claims C1/C4: totality of the mbti-chat normalization -/

theorem fixField_lookupD_ok (o : List (String × JsVal)) (k : String) (ok : JsVal → Bool)
    (w : JsVal) (hw : ok w = true) :
    ok (lookupD (fixField o k ok w) k) = true := by
  unfold fixField
  split
  · assumption
  · unfold lookupD
    rw [lookupField_setField_self]
    exact hw

theorem fixField_lookupD_ne (o : List (String × JsVal)) (k k' : String) (ok : JsVal → Bool)
    (w : JsVal) (hne : (k == k') = false) :
    lookupD (fixField o k ok w) k' = lookupD o k' := by
  unfold fixField
  split
  · rfl
  · unfold lookupD
    rw [lookupField_setField_ne _ _ _ _ hne]

/-- The mbti-chat validation always leaves an object with a truthy
`message`, boolean `ready`, numeric `progress` and numeric
`confidence`. -/
theorem mbtiValidate_fields (o : List (String × JsVal)) (messages : List ChatMsg) :
    mbtiFieldsB (mbtiValidate o messages) = true := by
  unfold mbtiValidate mbtiFieldsB
  set o1 := fixField o "message" JsVal.truthy (.vstr "Can you tell me more about that?")
    with ho1
  set o2 := fixField o1 "ready" isBoolB (.vbool false) with ho2
  set o3 := fixField o2 "progress" isNumB
    (.vnum (JNum.ofNat (min (userCount messages + 1) 5))) with ho3
  set o4 := fixField o3 "confidence" isNumB (.vnum (JNum.ofNat 0)) with ho4
  have hconf : isNumB (lookupD o4 "confidence") = true := by
    rw [ho4]
    exact fixField_lookupD_ok o3 _ _ _ (by rfl)
  have hprog : isNumB (lookupD o4 "progress") = true := by
    rw [ho4, fixField_lookupD_ne o3 _ _ _ _ (by rfl), ho3]
    exact fixField_lookupD_ok o2 _ _ _ (by rfl)
  have hready : isBoolB (lookupD o4 "ready") = true := by
    rw [ho4, fixField_lookupD_ne o3 _ _ _ _ (by rfl), ho3,
      fixField_lookupD_ne o2 _ _ _ _ (by rfl), ho2]
    exact fixField_lookupD_ok o1 _ _ _ (by rfl)
  have hmsg : (lookupD o4 "message").truthy = true := by
    rw [ho4, fixField_lookupD_ne o3 _ _ _ _ (by rfl), ho3,
      fixField_lookupD_ne o2 _ _ _ _ (by rfl), ho2,
      fixField_lookupD_ne o1 _ _ _ _ (by rfl), ho1]
    exact fixField_lookupD_ok o _ _ _ (by rfl)
  rw [hmsg, hready, hprog, hconf]
  rfl

set_option maxRecDepth 8000 in
/-- The catch-block fallback always carries the four contract fields. -/
theorem fallbackResponse_fields (messages : List ChatMsg) :
    mbtiFieldsB (fallbackResponse messages) = true := by
  unfold mbtiFieldsB fallbackResponse lookupD
  by_cases h : (userCount messages == 0) = true <;>
    simp [h, lookupField, JsVal.truthy, isBoolB, isNumB] <;> decide

/-- Values that the mbti-chat normalization passes through unchanged:
everything except objects (validated in place) and `null` (which makes
the validation throw into the catch fallback).  `JSON.parse` never
returns `undefined`, so in practice these are the JSON primitives and
arrays. -/
def passThroughB : JsVal → Bool
  | .vobj _ => false
  | .vnull => false
  | _ => true

/-- Claim C1 (amended): the mbti-chat normalization never fails; for
every raw text and message list it returns either an object carrying a
truthy `message`, a boolean `ready`, a numeric `progress` and a numeric
`confidence` (parse success on an object, parse failure via the smart
fallback, and parsed `null` via the catch fallback all land here), or —
when the cleaned text parses to a JSON primitive or array — that parsed
value unchanged. -/
theorem mbtiNormalize_spec (content : String) (messages : List ChatMsg) :
    (∃ o, mbtiNormalize content messages = .vobj o ∧ mbtiFieldsB o = true) ∨
    (∃ v, jsonParse (mbtiClean content) = some v ∧ passThroughB v = true ∧
      mbtiNormalize content messages = v) := by
  unfold mbtiNormalize
  rcases h : jsonParse (mbtiClean content) with _ | v
  · exact Or.inl ⟨_, rfl, mbtiValidate_fields _ _⟩
  · cases v with
    | vobj o => exact Or.inl ⟨_, rfl, mbtiValidate_fields _ _⟩
    | vnull => exact Or.inl ⟨_, rfl, fallbackResponse_fields _⟩
    | vundef => exact Or.inr ⟨_, rfl, rfl, rfl⟩
    | vbool b => exact Or.inr ⟨_, rfl, rfl, rfl⟩
    | vnum q => exact Or.inr ⟨_, rfl, rfl, rfl⟩
    | vstr s => exact Or.inr ⟨_, rfl, rfl, rfl⟩
    | varr l => exact Or.inr ⟨_, rfl, rfl, rfl⟩

/-- Counterexample to C1 as stated: the raw text `5` parses as the JSON
number `5`, which the normalization returns unchanged — not an object,
so in particular not an object containing every required contract
field. -/
theorem c1_counterexample :
    mbtiNormalize "5" [] = .vnum ⟨5, 1⟩ ∧ isObjB (mbtiNormalize "5" []) = false :=
  ⟨by rfl, by rfl⟩

/-- Claim C4 (amended): when the single provider call of the mbti-chat
handler fails (network error / timeout or a non-success status such as
500 from every configured provider), the caller-visible response is
HTTP 200 with the contract-conforming degraded "continue the
conversation" reply — never an error payload.  (The part_012 handler
instead surfaces a 500 error payload; see the counterexample.) -/
theorem mbtiHandler_degraded (r : ProviderResponse) (messages : List ChatMsg)
    (h : r = .timeout ∨ ∃ st ct b, r = .reply st ct b ∧ okStatus st = false) :
    mbtiHandler r messages = (200, .vobj (fallbackResponse messages)) ∧
    mbtiFieldsB (fallbackResponse messages) = true ∧
    lookupField (fallbackResponse messages) "ready" = some (.vbool false) := by
  refine ⟨?_, fallbackResponse_fields _, by rfl⟩
  rcases h with rfl | ⟨st, ct, b, rfl, hok⟩
  · rfl
  · unfold mbtiHandler
    simp [hok]

/-- Witness for C4 on a timed-out provider call. -/
theorem mbtiHandler_degraded_witness :
    mbtiHandler .timeout [] = (200, .vobj (fallbackResponse [])) ∧
    mbtiFieldsB (fallbackResponse []) = true ∧
    lookupField (fallbackResponse []) "ready" = some (.vbool false) :=
  mbtiHandler_degraded .timeout [] (Or.inl rfl)

/-- Counterexample to C4 as stated: in the part_012 handler, when every
provider in the chain returns HTTP 500 the caller receives a 500
response whose body is an error payload, not a contract-conforming
degraded reply. -/
theorem c4_counterexample :
    p12Handler (fun _ => .reply 500 false "Internal Server Error")
      (.varr [.vobj [("role", .vstr "user"), ("content", .vstr "hi")]]) =
      (500, .vobj [("error", .vstr "Service temporarily unavailable. Please try again.")]) ∧
    (500 : Nat) ≠ 200 ∧
    mbtiFieldsB [("error", .vstr "Service temporarily unavailable. Please try again.")] =
      false :=
  ⟨by rfl, by decide, by rfl⟩

/-! ### Claim C3: the part_012 provider fallback loop -/

/-- JSON scalar (non-object, non-array) results, which the part_012
validation rejects with `continue` (a parsed `null` fails the `!parsed`
truthiness check, scalars fail `typeof parsed !== 'object'`). -/
def jsonScalarB : JsVal → Bool
  | .vobj _ => false
  | .varr _ => false
  | _ => true

/-- The exact conditions on which the part_012 loop advances to the
next provider: a thrown fetch (timeout), a non-success HTTP status, an
unparseable or structurally invalid envelope, missing content, content
failing the `isValidText` filter, or content that is not a JSON object
or array. -/
def p12FailSpec (r : ProviderResponse) : Prop :=
  r = .timeout ∨
  (∃ st ct b, r = .reply st ct b ∧ okStatus st = false) ∨
  getJsonResponseM r = none ∨
  (∃ env, getJsonResponseM r = some env ∧ p12ExtractContent env = none) ∨
  (∃ env s, getJsonResponseM r = some env ∧ p12ExtractContent env = some s ∧
    (isValidText s = false ∨ jsonParse s = none ∨
      ∃ v, jsonParse s = some v ∧ jsonScalarB v = true))

theorem p12Attempt_none_iff (r : ProviderResponse) :
    p12Attempt r = none ↔ p12FailSpec r := by
  constructor
  · intro h
    unfold p12Attempt at h
    rcases hg : getJsonResponseM r with _ | env
    · exact Or.inr (Or.inr (Or.inl hg))
    · rw [hg] at h
      simp only [Option.some_bind] at h
      rcases he : p12ExtractContent env with _ | s
      · exact Or.inr (Or.inr (Or.inr (Or.inl ⟨env, hg, he⟩)))
      · rw [he] at h
        simp only [Option.some_bind] at h
        by_cases hv : isValidText s = true
        · rw [hv] at h
          simp only [if_true] at h
          rcases hp : jsonParse s with _ | v
          · exact Or.inr (Or.inr (Or.inr (Or.inr ⟨env, s, hg, he, Or.inr (Or.inl hp)⟩)))
          · rw [hp] at h
            cases v with
            | vobj o => simp at h
            | varr l => simp at h
            | vnull =>
              exact Or.inr (Or.inr (Or.inr (Or.inr ⟨env, s, hg, he,
                Or.inr (Or.inr ⟨_, hp, rfl⟩)⟩)))
            | vundef =>
              exact Or.inr (Or.inr (Or.inr (Or.inr ⟨env, s, hg, he,
                Or.inr (Or.inr ⟨_, hp, rfl⟩)⟩)))
            | vbool b =>
              exact Or.inr (Or.inr (Or.inr (Or.inr ⟨env, s, hg, he,
                Or.inr (Or.inr ⟨_, hp, rfl⟩)⟩)))
            | vnum q =>
              exact Or.inr (Or.inr (Or.inr (Or.inr ⟨env, s, hg, he,
                Or.inr (Or.inr ⟨_, hp, rfl⟩)⟩)))
            | vstr s2 =>
              exact Or.inr (Or.inr (Or.inr (Or.inr ⟨env, s, hg, he,
                Or.inr (Or.inr ⟨_, hp, rfl⟩)⟩)))
        · have hv2 : isValidText s = false := by simpa using hv
          exact Or.inr (Or.inr (Or.inr (Or.inr ⟨env, s, hg, he, Or.inl hv2⟩)))
  · intro h
    rcases h with rfl | ⟨st, ct, b, rfl, hok⟩ | hg | ⟨env, hg, he⟩ | ⟨env, s, hg, he, hrest⟩
    · rfl
    · unfold p12Attempt
      have hg2 : getJsonResponseM (.reply st ct b) = none := by
        simp only [getJsonResponseM, hok]
        rfl
      rw [hg2]
      rfl
    · unfold p12Attempt
      rw [hg]
      rfl
    · unfold p12Attempt
      rw [hg]
      simp only [Option.some_bind]
      rw [he]
      rfl
    · unfold p12Attempt
      rw [hg]
      simp only [Option.some_bind]
      rw [he]
      simp only [Option.some_bind]
      rcases hrest with hv | hp | ⟨v, hp, hscal⟩
      · rw [hv]
        rfl
      · rw [hp]
        split <;> rfl
      · rw [hp]
        cases v with
        | vobj o => simp [jsonScalarB] at hscal
        | varr l => simp [jsonScalarB] at hscal
        | vnull => split <;> rfl
        | vundef => split <;> rfl
        | vbool b => split <;> rfl
        | vnum q => split <;> rfl
        | vstr s2 => split <;> rfl

/-- Claim C3 (amended): for every provider map, chain position and
remaining chain, the part_012 loop returns the first successful
attempt's output immediately (trying no further providers), advances on
a failed attempt, and an attempt fails exactly when the call times out,
returns a non-success status, yields an unusable envelope or content,
fails the degenerate-text validity filter, or — additionally to the
claim as stated — passes the filter but does not parse as a JSON
object/array. -/
theorem tryModelsInOrder_spec (env : String → ProviderResponse) (m : String)
    (rest : List String) :
    (∀ s, p12Attempt (env m) = some s → tryModelsInOrder env (m :: rest) = some s) ∧
    (p12Attempt (env m) = none → tryModelsInOrder env (m :: rest) = tryModelsInOrder env rest) ∧
    (p12Attempt (env m) = none ↔ p12FailSpec (env m)) := by
  refine ⟨?_, ?_, p12Attempt_none_iff (env m)⟩
  · intro s h
    show (match p12Attempt (env m) with
          | some s => some s
          | none => tryModelsInOrder env rest) = some s
    rw [h]
  · intro h
    show (match p12Attempt (env m) with
          | some s => some s
          | none => tryModelsInOrder env rest) = tryModelsInOrder env rest
    rw [h]

/-- Witness for C3 on a timing-out provider. -/
theorem tryModelsInOrder_spec_witness :
    tryModelsInOrder (fun _ => .timeout) ["a", "b"] =
      tryModelsInOrder (fun _ => .timeout) ["b"] ∧
    p12FailSpec ProviderResponse.timeout :=
  ⟨(tryModelsInOrder_spec (fun _ => .timeout) "a" ["b"]).2.1 (by rfl),
   (tryModelsInOrder_spec (fun _ => .timeout) "a" ["b"]).2.2.mp (by rfl)⟩

/-- The C3 counterexample provider map: the first model answers 200
with a well-formed envelope whose content is plain (non-JSON) text that
passes the validity filter; every other model answers 200 with a
well-formed envelope whose content is the JSON object
`{"type":"INTJ"}`. -/
def c3env : String → ProviderResponse := fun m =>
  if m == "anthropic/claude-3-haiku" then
    .reply 200 true
      "\x7b\"choices\":[\x7b\"message\":\x7b\"content\":\"this is plain text!!\"\x7d\x7d]\x7d"
  else
    .reply 200 true
      "\x7b\"choices\":[\x7b\"message\":\x7b\"content\":\"\x7b\\\"type\\\":\\\"INTJ\\\"\x7d\"\x7d\x7d]\x7d"

/-- The output the chain actually returns in that situation (the
second model's coerced reply). -/
def c3out : String :=
  "\x7b\"type\":\"INTJ\",\"confidence\":0,\"strengths\":[],\"growth_tips\":[],\"one_liner\":\"\"\x7d"

/-- Counterexample to C3 as stated: the first model's text passes the
validity filter, yet the orchestrator does NOT return it — it advances
(because the text fails JSON validation, a condition absent from the
claim's advance list) and returns the second model's output. -/
theorem c3_counterexample :
    p12ExtractContent (.vobj [("choices", .varr [.vobj [("message",
        .vobj [("content", .vstr "this is plain text!!")])]])]) =
      some "this is plain text!!" ∧
    getJsonResponseM (c3env "anthropic/claude-3-haiku") =
      some (.vobj [("choices", .varr [.vobj [("message",
        .vobj [("content", .vstr "this is plain text!!")])]])]) ∧
    isValidText "this is plain text!!" = true ∧
    tryModelsInOrder c3env p12Models = some c3out ∧
    c3out ≠ "this is plain text!!" :=
  ⟨by rfl, by rfl, by rfl, by rfl, by decide⟩

/-! ### Claim C5: the sliding-window rate limiter -/

/-- Membership of instant `t` in the sliding window `(T - w, T]`. -/
def winB (w T t : Nat) : Bool := decide (t ≤ T) && decide (T - t < w)

/-- Window-bound invariant: starting from a stored list whose
window-filtered view agrees with the already-admitted instants `A`, for
every nondecreasing continuation the total admitted instants inside any
sliding window stay at most `limit`. -/
theorem admitted_window_bound (limit w : Nat) :
    ∀ (calls : List Nat), ∀ (state A : List Nat) (m : Nat),
      calls.Pairwise (· ≤ ·) →
      (∀ c ∈ calls, m ≤ c) →
      (∀ t ∈ A, ∀ c ∈ calls, t ≤ c) →
      (∀ now, m ≤ now →
        state.filter (fun t => decide (now - t < w)) =
          A.filter (fun t => decide (now - t < w))) →
      (∀ T, A.countP (winB w T) ≤ limit) →
      ∀ T, (A ++ admittedTimes limit w state calls).countP (winB w T) ≤ limit := by
  intro calls
  induction calls with
  | nil =>
    intro state A m _ _ _ _ hB T
    simpa [admittedTimes] using hB T
  | cons c rest ih =>
    intro state A m hpw hm hle hA hB T
    have hpw_rest : rest.Pairwise (· ≤ ·) := (List.pairwise_cons.mp hpw).2
    have hcrest : ∀ c' ∈ rest, c ≤ c' := (List.pairwise_cons.mp hpw).1
    have hmc : m ≤ c := hm c (List.mem_cons_self _ _)
    by_cases hlen : (state.filter (fun t => decide (c - t < w))).length ≥ limit
    · have hstep : checkRateLimit state c limit w = (false, state) := by
        unfold checkRateLimit
        simp [hlen]
      have hadm : admittedTimes limit w state (c :: rest) =
          admittedTimes limit w state rest := by
        simp only [admittedTimes, hstep]
        rfl
      rw [hadm]
      exact ih state A c hpw_rest hcrest
        (fun t ht c' hc' => hle t ht c' (List.mem_cons_of_mem _ hc'))
        (fun now hnow => hA now (le_trans hmc hnow)) hB T
    · have hstep : checkRateLimit state c limit w =
          (true, state.filter (fun t => decide (c - t < w)) ++ [c]) := by
        unfold checkRateLimit
        simp only [ge_iff_le] at hlen ⊢
        rw [if_neg hlen]
      have hadm : admittedTimes limit w state (c :: rest) =
          c :: admittedTimes limit w
            (state.filter (fun t => decide (c - t < w)) ++ [c]) rest := by
        simp only [admittedTimes, hstep]
        rfl
      rw [hadm]
      have hassoc : A ++ c :: admittedTimes limit w
            (state.filter (fun t => decide (c - t < w)) ++ [c]) rest =
          (A ++ [c]) ++ admittedTimes limit w
            (state.filter (fun t => decide (c - t < w)) ++ [c]) rest := by
        simp
      rw [hassoc]
      apply ih (state.filter (fun t => decide (c - t < w)) ++ [c]) (A ++ [c]) c
        hpw_rest hcrest
      · intro t ht c' hc'
        rcases List.mem_append.mp ht with ht2 | ht2
        · exact hle t ht2 c' (List.mem_cons_of_mem _ hc')
        · have heq : t = c := List.mem_singleton.mp ht2
          subst heq
          exact hcrest c' hc'
      · intro now hnow
        rw [List.filter_append, List.filter_append]
        have h1 : (state.filter (fun t => decide (c - t < w))).filter
            (fun t => decide (now - t < w)) =
            state.filter (fun t => decide (now - t < w)) := by
          rw [List.filter_filter]
          apply List.filter_congr
          intro a _
          by_cases hna : now - a < w
          · have hca : c - a < w := by omega
            simp [hna, hca]
          · simp [hna]
        rw [h1, hA now (le_trans hmc hnow)]
      · intro T2
        rw [List.countP_append]
        by_cases hcwin : winB w T2 c = true
        · have h3 : A.countP (winB w T2) ≤ A.countP (fun t => decide (c - t < w)) := by
            apply List.countP_mono_left
            intro a ha hwa
            have h4 : a ≤ c := hle a ha c (List.mem_cons_self _ _)
            unfold winB at hwa hcwin
            simp only [Bool.and_eq_true, decide_eq_true_eq] at hwa hcwin
            simp only [decide_eq_true_eq]
            omega
          have h5 : A.countP (fun t => decide (c - t < w)) =
              (A.filter (fun t => decide (c - t < w))).length :=
            List.countP_eq_length_filter _ _
          rw [h5, ← hA c hmc] at h3
          have h6 : List.countP (winB w T2) [c] = 1 := by
            simp [List.countP_cons, hcwin]
          simp only [ge_iff_le, Nat.not_le] at hlen
          omega
        · have h6 : List.countP (winB w T2) [c] = 0 := by
            simp only [Bool.not_eq_true] at hcwin
            simp [List.countP_cons, hcwin]
          have := hB T2
          omega

theorem rateLimitRun_append (limit w : Nat) (xs ys : List Nat) :
    ∀ s, rateLimitRun limit w s (xs ++ ys) =
      ((rateLimitRun limit w s xs).1 ++
        (rateLimitRun limit w (rateLimitRun limit w s xs).2 ys).1,
       (rateLimitRun limit w (rateLimitRun limit w s xs).2 ys).2) := by
  induction xs with
  | nil => intro s; simp [rateLimitRun]
  | cons x xs ih =>
    intro s
    simp only [List.cons_append, rateLimitRun]
    rw [List.append_eq, ih]

theorem rateLimitRun_replicate (limit w : Nat) (hw : 0 < w) (t0 : Nat) :
    ∀ n j, j + n ≤ limit →
      rateLimitRun limit w (List.replicate j t0) (List.replicate n t0) =
        (List.replicate n true, List.replicate (j + n) t0) := by
  intro n
  induction n with
  | zero => intro j h; simp [rateLimitRun]
  | succ n ih =>
    intro j h
    have hf : (List.replicate j t0).filter (fun t => decide (t0 - t < w)) =
        List.replicate j t0 := by
      rw [List.filter_replicate]
      simp only [Nat.sub_self]
      rw [if_pos (by simpa using hw)]
    have hstep : checkRateLimit (List.replicate j t0) t0 limit w =
        (true, List.replicate (j + 1) t0) := by
      unfold checkRateLimit
      rw [hf]
      have hnl : ¬ (limit ≤ (List.replicate j t0).length) := by
        simp only [List.length_replicate]
        omega
      simp only [ge_iff_le]
      rw [if_neg hnl, ← List.replicate_succ']
    rw [List.replicate_succ]
    simp only [rateLimitRun, hstep]
    rw [ih (j + 1) (by omega)]
    have harith : j + 1 + n = j + (n + 1) := by omega
    rw [harith, ← List.replicate_succ]

/-- Claim C5: for a single client key, a positive limit and window, (a)
over any nondecreasing call sequence the limiter admits at most `limit`
calls whose instants fall inside any sliding window of length `w`
(together with (b), "exactly `limit`" when the window is saturated),
and (b) in the saturated scenario of `limit + 1` simultaneous calls
followed by one call a full window later, the first `limit` calls are
admitted, the `(limit+1)`-th is rejected, and the later call is
admitted again once the old instants have aged out. -/
theorem checkRateLimit_spec (limit w : Nat) (hw : 0 < w) (hl : 0 < limit) :
    (∀ calls : List Nat, calls.Chain' (· ≤ ·) →
      ∀ T, (admittedTimes limit w [] calls).countP (winB w T) ≤ limit) ∧
    (∀ t0 : Nat,
      (rateLimitRun limit w [] (List.replicate (limit + 1) t0 ++ [t0 + w])).1 =
        List.replicate limit true ++ [false, true]) := by
  constructor
  · intro calls hchain T
    have hpw : calls.Pairwise (· ≤ ·) := List.chain'_iff_pairwise.mp hchain
    have h := admitted_window_bound limit w calls [] [] 0 hpw (fun c _ => Nat.zero_le c)
      (by simp) (fun now _ => by simp) (by simp) T
    simpa using h
  · intro t0
    have hsplit : List.replicate (limit + 1) t0 ++ [t0 + w] =
        List.replicate limit t0 ++ [t0, t0 + w] := by
      rw [List.replicate_succ']
      simp
    rw [hsplit, rateLimitRun_append]
    have hfirst : rateLimitRun limit w [] (List.replicate limit t0) =
        (List.replicate limit true, List.replicate limit t0) := by
      have h := rateLimitRun_replicate limit w hw t0 limit 0 (by omega)
      simpa using h
    rw [hfirst]
    have hf : (List.replicate limit t0).filter (fun t => decide (t0 - t < w)) =
        List.replicate limit t0 := by
      rw [List.filter_replicate]
      simp only [Nat.sub_self]
      rw [if_pos (by simpa using hw)]
    have hstep1 : checkRateLimit (List.replicate limit t0) t0 limit w =
        (false, List.replicate limit t0) := by
      unfold checkRateLimit
      rw [hf]
      simp
    have hstep2 : checkRateLimit (List.replicate limit t0) (t0 + w) limit w =
        (true, [t0 + w]) := by
      unfold checkRateLimit
      have hf2 : (List.replicate limit t0).filter (fun t => decide (t0 + w - t < w)) = [] := by
        rw [List.filter_replicate]
        rw [if_neg (by simp only [decide_eq_true_eq]; omega)]
      rw [hf2]
      have hnl : ¬ (limit ≤ ([] : List Nat).length) := by
        simp only [List.length_nil]
        omega
      simp only [ge_iff_le]
      rw [if_neg hnl]
      rfl
    simp [rateLimitRun, hstep1, hstep2]

/-- Witness for C5 at limit 10 and a 60-second window (scenario E of
the specification). -/
theorem checkRateLimit_spec_witness :
    (admittedTimes 10 60000 [] [0, 0, 30000]).countP (winB 60000 30000) ≤ 10 ∧
    (rateLimitRun 10 60000 [] (List.replicate 11 0 ++ [60000])).1 =
      List.replicate 10 true ++ [false, true] := by
  constructor
  · exact (checkRateLimit_spec 10 60000 (by decide) (by decide)).1 [0, 0, 30000]
      (by norm_num [List.chain'_cons]) 30000
  · exact (checkRateLimit_spec 10 60000 (by decide) (by decide)).2 0

/-! ### Claim C8: round-tripping fenced JSON through the normalizer -/

theorem dropWhile_append_of_ne_nil {p : Char → Bool} (l₂ : List Char) :
    ∀ l₁ : List Char, l₁.dropWhile p ≠ [] →
      (l₁ ++ l₂).dropWhile p = l₁.dropWhile p ++ l₂ := by
  intro l₁
  induction l₁ with
  | nil => intro h; simp [List.dropWhile] at h
  | cons c t ih =>
    intro h
    by_cases hc : p c
    · rw [List.dropWhile_cons_of_pos hc] at h
      rw [List.cons_append, List.dropWhile_cons_of_pos hc, List.dropWhile_cons_of_pos hc]
      exact ih h
    · rw [List.cons_append, List.dropWhile_cons_of_neg hc, List.dropWhile_cons_of_neg hc]
      rfl

theorem head_dropWhile_spec {p : Char → Bool} :
    ∀ (l : List Char) (d : Char) (t' : List Char),
      l.dropWhile p = d :: t' → d ∈ l ∧ p d = false := by
  intro l
  induction l with
  | nil => intro d t' h; simp [List.dropWhile] at h
  | cons c t ih =>
    intro d t' h
    by_cases hc : p c
    · rw [List.dropWhile_cons_of_pos hc] at h
      obtain ⟨hm, hp⟩ := ih d t' h
      exact ⟨List.mem_cons_of_mem _ hm, hp⟩
    · rw [List.dropWhile_cons_of_neg hc] at h
      injection h with h1 h2
      subst h1
      exact ⟨List.mem_cons_self _ _, by simpa using hc⟩

theorem ticksPrefix_false {d : Char} (l : List Char) (h : d ≠ btC) :
    "```".data.isPrefixOf (d :: l) = false := by
  have he : "```".data = btC :: "``".data := by rfl
  rw [he]
  simp [List.isPrefixOf, Ne.symm h]

theorem fenceOpenPrefix_false {d : Char} (l : List Char) (h : d ≠ btC) :
    "```json".data.isPrefixOf (d :: l) = false := by
  have he : "```json".data = btC :: "``json".data := by rfl
  rw [he]
  simp [List.isPrefixOf, Ne.symm h]

theorem matchFenceOpen_none {c : Char} (l : List Char) (h : c ≠ btC) :
    matchFenceOpen (c :: l) = none := by
  unfold matchFenceOpen
  simp [fenceOpenPrefix_false l h]

/-- `fenceScanF` leaves the whole input untouched on empty input. -/
theorem fenceScanF_nil : ∀ fuel : Nat, fenceScanF fuel [] = [] := by
  intro fuel
  cases fuel <;> rfl

/-- The closing sequence: a newline followed by three backticks. -/
def fenceSep : List Char := [Char.ofNat 10, btC, btC, btC]

/-- Scanning a backtick-free text whose last character is not
whitespace, followed by the closing `\n``` `, removes exactly the
closing sequence. -/
theorem fenceScanF_append_ticks :
    ∀ (cs : List Char) (fuel : Nat),
      cs.length + 4 ≤ fuel →
      btC ∉ cs →
      (∀ lc, cs.getLast? = some lc → isRegexWs lc = false) →
      fenceScanF fuel (cs ++ fenceSep) = cs := by
  intro cs
  induction cs with
  | nil =>
    intro fuel hfuel _ _
    obtain ⟨f, rfl⟩ : ∃ f, fuel = f + 1 := ⟨fuel - 1, by omega⟩
    have hopen : matchFenceOpen ([] ++ fenceSep) = none := by rfl
    have hticks : matchFenceTicks ([] ++ fenceSep) = some [] := by rfl
    simp only [fenceScanF, hopen, hticks]
    exact fenceScanF_nil f
  | cons c t ih =>
    intro fuel hfuel hbt hlast
    obtain ⟨f, rfl⟩ : ∃ f, fuel = f + 1 := ⟨fuel - 1, by omega⟩
    have hcbt : c ≠ btC := by
      intro heq
      exact hbt (heq ▸ List.mem_cons_self _ _)
    have hopen : matchFenceOpen ((c :: t) ++ fenceSep) = none :=
      matchFenceOpen_none _ hcbt
    have hne : (c :: t).dropWhile isRegexWs ≠ [] := by
      intro hnil
      rw [List.dropWhile_eq_nil_iff] at hnil
      rcases hl : (c :: t).getLast? with _ | lc
      · simp at hl
      · have hmem : lc ∈ c :: t := List.mem_of_mem_getLast? hl
        have := hnil lc hmem
        rw [hlast lc hl] at this
        cases this
    have hticks : matchFenceTicks ((c :: t) ++ fenceSep) = none := by
      unfold matchFenceTicks
      rcases hdw : (c :: t).dropWhile isRegexWs with _ | ⟨d, t'⟩
      · exact absurd hdw hne
      · obtain ⟨hdmem, _⟩ := head_dropWhile_spec (c :: t) d t' hdw
        have hdbt : d ≠ btC := by
          intro hdeq
          exact hbt (hdeq ▸ hdmem)
        rw [dropWhile_append_of_ne_nil fenceSep (c :: t) hne, hdw]
        simp [ticksPrefix_false _ hdbt]
    have hgoal : fenceScanF (f + 1) ((c :: t) ++ fenceSep) =
        c :: fenceScanF f (t ++ fenceSep) := by
      simp only [List.cons_append, fenceScanF]
      rw [show matchFenceOpen (c :: (t ++ fenceSep)) = none from hopen,
        show matchFenceTicks (c :: (t ++ fenceSep)) = none from hticks]
    rw [hgoal]
    congr 1
    cases t with
    | nil =>
      have h0 : fenceScanF f ([] ++ fenceSep) = [] := by
        apply ih f ?_ (by simp) (fun lc hlc => by simp at hlc)
        simp only [List.length_cons, List.length_nil] at hfuel
        simp only [List.length_nil]
        omega
      simpa using h0
    | cons t0 trest =>
      have hlast2 : ∀ lc, (t0 :: trest).getLast? = some lc → isRegexWs lc = false := by
        intro lc hlc
        apply hlast lc
        rw [← hlc]
        rfl
      have hbt2 : btC ∉ t0 :: trest := fun hm => hbt (List.mem_cons_of_mem _ hm)
      apply ih f ?_ hbt2 hlast2
      simp only [List.length_cons] at hfuel ⊢
      omega

theorem jsTrimL_eq_self (cs : List Char)
    (h1 : ∀ c, cs.head? = some c → isRegexWs c = false)
    (h2 : ∀ c, cs.getLast? = some c → isRegexWs c = false) :
    jsTrimL cs = cs := by
  cases cs with
  | nil => rfl
  | cons c t =>
    unfold jsTrimL
    have hc : isRegexWs c = false := h1 c rfl
    rw [List.dropWhile_cons_of_neg (by simp [hc])]
    rcases hrev : (c :: t).reverse with _ | ⟨d, r⟩
    · have hlen := congrArg List.length hrev
      simp at hlen
    · have hd : (c :: t).getLast? = some d := by
        rw [← List.head?_reverse, hrev]
        rfl
      have hdw : isRegexWs d = false := h2 d hd
      have hstep : List.dropWhile isRegexWs (d :: r) = d :: r :=
        List.dropWhile_cons_of_neg (by simp [hdw])
      rw [hstep, ← hrev, List.reverse_reverse]

theorem extractBraces_eq_self (cs : List Char)
    (hhead : cs.head? = some lbC) (hlast : cs.getLast? = some rbC) :
    extractBraces cs = cs := by
  obtain ⟨t, rfl⟩ : ∃ t, cs = lbC :: t := by
    cases cs with
    | nil => simp at hhead
    | cons c t =>
      refine ⟨t, ?_⟩
      have hc : some c = some lbC := by rw [← hhead]; rfl
      injection hc with hc2
      rw [hc2]
  cases t with
  | nil =>
    have h2 : some lbC = some rbC := by rw [← hlast]; rfl
    injection h2 with h3
    exact absurd h3 (by decide)
  | cons t0 tr =>
    unfold extractBraces bracesSlice
    have hpre : (lbC :: t0 :: tr).takeWhile (fun c => !(c == lbC)) = [] := by
      rw [List.takeWhile_cons_of_neg]
      simp
    rcases hrev : (lbC :: t0 :: tr).reverse with _ | ⟨d, r⟩
    · have hlen := congrArg List.length hrev
      simp at hlen
    · have hd : d = rbC := by
        have h4 : (lbC :: t0 :: tr).getLast? = some d := by
          rw [← List.head?_reverse, hrev]
          rfl
        have h5 : some d = some rbC := by rw [← h4, hlast]
        injection h5
      subst hd
      have hpost : List.takeWhile (fun c => !(c == rbC)) (rbC :: r) = [] := by
        rw [List.takeWhile_cons_of_neg]
        simp
      rw [hpre, hpost]
      dsimp only
      rw [if_pos (by simp)]
      simp only [List.length_nil, Nat.sub_zero, List.drop_zero, Option.getD_some]
      exact List.take_length _

theorem mbtiValidate_id (o : List (String × JsVal)) (messages : List ChatMsg)
    (h : mbtiFieldsB o = true) :
    mbtiValidate o messages = o := by
  unfold mbtiFieldsB at h
  simp only [Bool.and_eq_true] at h
  obtain ⟨⟨⟨hm, hr⟩, hp⟩, hc⟩ := h
  unfold mbtiValidate
  have e1 : fixField o "message" JsVal.truthy (.vstr "Can you tell me more about that?") = o := by
    unfold fixField
    rw [if_pos hm]
  rw [e1]
  have e2 : fixField o "ready" isBoolB (.vbool false) = o := by
    unfold fixField
    rw [if_pos hr]
  rw [e2]
  have e3 : fixField o "progress" isNumB
      (.vnum (JNum.ofNat (min (userCount messages + 1) 5))) = o := by
    unfold fixField
    rw [if_pos hp]
  rw [e3]
  unfold fixField
  rw [if_pos hc]

theorem fenceScanF_step_open (fuel : Nat) (cs rest : List Char)
    (h : matchFenceOpen cs = some rest) :
    fenceScanF (fuel + 1) cs = fenceScanF fuel rest := by
  simp only [fenceScanF, h]

theorem mbtiClean_fenced (j : String)
    (hbt : btC ∉ j.data)
    (hhead : j.data.head? = some lbC)
    (hlast : j.data.getLast? = some rbC) :
    mbtiClean ("```json\n" ++ j ++ "\n```") = j := by
  unfold mbtiClean
  have hdata : ("```json\n" ++ j ++ "\n```").data =
      "```json\n".data ++ (j.data ++ fenceSep) := by
    rw [String.data_append, String.data_append]
    rw [show "\n```".data = fenceSep from rfl, List.append_assoc]
  rw [hdata]
  dsimp only
  have hlastfull : ∀ c, ("```json\n".data ++ (j.data ++ fenceSep)).getLast? = some c →
      isRegexWs c = false := by
    intro c hc
    rw [List.getLast?_append_of_ne_nil _ (by simp [fenceSep]),
      List.getLast?_append_of_ne_nil _ (by simp [fenceSep])] at hc
    have : some btC = some c := by rw [← hc]; rfl
    injection this with h2
    rw [← h2]
    decide
  have htrim1 : jsTrimL ("```json\n".data ++ (j.data ++ fenceSep)) =
      "```json\n".data ++ (j.data ++ fenceSep) := by
    apply jsTrimL_eq_self
    · intro c hc
      have : some btC = some c := by rw [← hc]; rfl
      injection this with h2
      rw [← h2]
      decide
    · exact hlastfull
  rw [htrim1]
  have hdw : (Char.ofNat 10 :: (j.data ++ fenceSep)).dropWhile isRegexWs =
      j.data ++ fenceSep := by
    rw [List.dropWhile_cons_of_pos (by decide)]
    cases hjd : j.data with
    | nil => rw [hjd] at hhead; simp at hhead
    | cons d rest =>
      rw [hjd] at hhead
      have : some d = some lbC := by rw [← hhead]; rfl
      injection this with h2
      subst h2
      rw [List.cons_append, List.dropWhile_cons_of_neg (by decide)]
  have hopen : matchFenceOpen ("```json\n".data ++ (j.data ++ fenceSep)) =
      some (j.data ++ fenceSep) := by
    unfold matchFenceOpen
    have hpre : "```json".data.isPrefixOf
        ("```json\n".data ++ (j.data ++ fenceSep)) = true := by
      rw [List.isPrefixOf_iff_prefix]
      exact ⟨Char.ofNat 10 :: (j.data ++ fenceSep), by rfl⟩
    rw [if_pos hpre]
    rw [show ("```json\n".data ++ (j.data ++ fenceSep)).drop 7 =
      Char.ofNat 10 :: (j.data ++ fenceSep) from rfl]
    rw [hdw]
  have hscan : fenceScan ("```json\n".data ++ (j.data ++ fenceSep)) = j.data := by
    unfold fenceScan
    have hlen : ("```json\n".data ++ (j.data ++ fenceSep)).length =
        (j.data.length + 11) + 1 := by
      simp [fenceSep]
    rw [hlen]
    rw [fenceScanF_step_open (j.data.length + 11) _ _ hopen]
    apply fenceScanF_append_ticks j.data (j.data.length + 11) (by omega) hbt
    intro lc hlc
    rw [hlast] at hlc
    injection hlc with h2
    rw [← h2]
    decide
  rw [hscan]
  have htrim2 : jsTrimL j.data = j.data := by
    apply jsTrimL_eq_self
    · intro c hc
      rw [hhead] at hc
      injection hc with h2
      rw [← h2]
      decide
    · intro c hc
      rw [hlast] at hc
      injection hc with h2
      rw [← h2]
      decide
  rw [htrim2, extractBraces_eq_self j.data hhead hlast]

/-- Claim C8 (amended): wrapping a contract-valid JSON object reply in
a ` ```json ... ``` ` code fence and normalizing returns exactly that
object, provided the interior contains no backtick (an interior
backtick is itself consumed by the fence-stripping regex and changes
the object — see the counterexample). -/
theorem mbtiNormalize_fenced (j : String) (o : List (String × JsVal))
    (messages : List ChatMsg)
    (hparse : jsonParse j = some (.vobj o))
    (hbt : btC ∉ j.data)
    (hhead : j.data.head? = some lbC)
    (hlast : j.data.getLast? = some rbC)
    (hcontract : mbtiFieldsB o = true) :
    mbtiNormalize ("```json\n" ++ j ++ "\n```") messages = .vobj o := by
  unfold mbtiNormalize
  rw [mbtiClean_fenced j hbt hhead hlast, hparse]
  show JsVal.vobj (mbtiValidate o messages) = .vobj o
  rw [mbtiValidate_id o messages hcontract]

/-- The interior object of the C8 witness. -/
def c8goodStr : String :=
  "\x7b\"message\":\"hi there\",\"ready\":true,\"progress\":2,\"confidence\":1\x7d"

/-- Witness for C8 on a concrete contract-valid fenced reply. -/
theorem mbtiNormalize_fenced_witness :
    mbtiNormalize ("```json\n" ++ c8goodStr ++ "\n```") [] =
      .vobj [("message", .vstr "hi there"), ("ready", .vbool true),
             ("progress", .vnum ⟨2, 1⟩), ("confidence", .vnum ⟨1, 1⟩)] :=
  mbtiNormalize_fenced c8goodStr
    [("message", .vstr "hi there"), ("ready", .vbool true),
     ("progress", .vnum ⟨2, 1⟩), ("confidence", .vnum ⟨1, 1⟩)] []
    (by rfl) (by decide) (by rfl) (by rfl) (by rfl)

/-- The interior object of the C8 counterexample: contract-valid JSON
whose `message` is the string ` ``` `. -/
def c8badStr : String :=
  "\x7b\"message\":\"```\",\"ready\":true,\"progress\":1,\"confidence\":1\x7d"

/-- Counterexample to C8 as stated: the interior is valid JSON
satisfying the contract, yet normalizing the fenced text does NOT
return it unchanged — the fence-stripping regex also consumes the
backticks inside the `message` string, leaving a falsy message that the
validation then replaces. -/
theorem c8_counterexample :
    jsonParse c8badStr = some (.vobj [("message", .vstr "```"), ("ready", .vbool true),
      ("progress", .vnum ⟨1, 1⟩), ("confidence", .vnum ⟨1, 1⟩)]) ∧
    mbtiFieldsB [("message", .vstr "```"), ("ready", .vbool true),
      ("progress", .vnum ⟨1, 1⟩), ("confidence", .vnum ⟨1, 1⟩)] = true ∧
    mbtiNormalize ("```json\n" ++ c8badStr ++ "\n```") [] =
      .vobj [("message", .vstr "Can you tell me more about that?"), ("ready", .vbool true),
             ("progress", .vnum ⟨1, 1⟩), ("confidence", .vnum ⟨1, 1⟩)] ∧
    ("Can you tell me more about that?" : String) ≠ "```" :=
  ⟨by rfl, by rfl, by rfl, by decide⟩
